import Mathlib

set_option maxHeartbeats 1000000

/-!
Verification development for the primitiv computation-graph core.

The definitions below are a shallow embedding of the C++ sources:
  * `Shape` and its inline member functions from src/primitiv/shape.h;
  * `Graph::add_function`, `Graph::forward`, `Graph::backward`,
    `Graph::get_value`, `Graph::get_gradient` and the `CHECK_NODE`
    macro from the graph implementation file (src/unnamed/part_000).

Tensors and devices are external collaborators of the core; they are
modelled by the abstract value type `TVal` (a tensor is either absent —
an invalid `Tensor()` — or carries a value).  Operations (`Function`)
are modelled as records of Lean functions for shape inference, forward
evaluation and backward accumulation; the engine is fully generic over
them, exactly as the C++ core is.

Exceptions (`throw std::runtime_error`) and `std::abort` are modelled
by the error type `Err`; every graph member function is translated in a
state-passing style that returns the graph state current at the point
of the throw, so that "no mutation before the failure" is a provable
property of the embedding rather than an artifact of purity.
-/

namespace Primitiv

/-- Shape of a node: stored per-axis extents `dims_`, batch size `k_`,
and the cached per-sample element count, mirroring the private fields
of `primitiv::Shape` (src/primitiv/shape.h). -/
structure Shape where
  dims_ : List Nat
  k_ : Nat
  num_elms_per_sample_ : Nat
deriving DecidableEq, Repr

/-- `Shape::depth()`: `dims_.size()`. -/
def Shape.depth (s : Shape) : Nat := s.dims_.length

/-- `Shape::operator[](i)`: `i < depth() ? dims_[i] : 1`. -/
def Shape.extent (s : Shape) (i : Nat) : Nat :=
  if i < s.depth then s.dims_.getD i 1 else 1

/-- `Shape::batch_size()`: `k_`. -/
def Shape.batch_size (s : Shape) : Nat := s.k_

/-- `Shape::has_compatible_batch(rhs)`:
`k_ == rhs.k_ || k_ == 1 || rhs.k_ == 1`. -/
def Shape.has_compatible_batch (s rhs : Shape) : Bool :=
  s.k_ == rhs.k_ || s.k_ == 1 || rhs.k_ == 1

/-- `Shape::has_same_dims(rhs)`: `dims_ == rhs.dims_`. -/
def Shape.has_same_dims (s rhs : Shape) : Bool :=
  s.dims_ == rhs.dims_

/-- Abstract tensor value.  The C++ `Tensor` is an external capability;
the core only ever constructs constant-filled tensors
(`device()->constant(shape, c)`, modelled by `TVal.const`) and passes
other tensor values around opaquely (`TVal.ext`). -/
inductive TVal where
  | const (s : Shape) (c : Int)
  | ext (tag : Nat)
deriving DecidableEq, Repr

/-- Operation (`primitiv::Function`) contract: shape inference, forward
evaluation and backward accumulation, plus a diagnostic name.  A
`Tensor` argument that may be invalid is passed as an `Option TVal`
(`none` = invalid tensor).  `bwd` receives the node's value, the node's
gradient, the gathered argument values and the gathered argument
gradient buffers, and returns the new contents of those buffers (the
C++ version mutates them in place through pointers). -/
structure Func where
  name : String
  forward_shape : List Shape → Except String Shape
  fwd : List (Option TVal) → TVal
  bwd : Option TVal → Option TVal → List (Option TVal) → List (Option TVal) → List TVal

/-- Modelled from the spec: the per-node record `Graph::NodeInfo` is
declared in the graph header, which is not among the provided sources;
its fields are reconstructed from every use in the graph implementation
file and from spec §3 (shape, operation, value, gradient, operand
positions, consumer/sink positions). -/
structure NodeInfo where
  shape : Shape
  func : Func
  value : Option TVal
  grad : Option TVal
  args : List Nat
  sinks : List Nat

/-- Modelled from the spec: the `Node` handle (graph identity `g_` plus
positional index `id_`) is declared in the graph header, not among the
provided sources; the C++ pointer `g_` is modelled as a numeric graph
identity tag. -/
structure Node where
  g : Nat
  id : Nat
deriving DecidableEq, Repr

/-- The graph: an identity tag (standing for the `this` pointer) and
the append-only sequence of node records (`nodes_`). -/
structure Graph where
  gid : Nat
  nodes : List NodeInfo

/-- Failure conditions of the core.  `mismatch`, `shape_mismatch`,
`not_calculated` and `has_gradient` model thrown `std::runtime_error`s
(recoverable, reported to the caller); `invalid_id` models the
`std::abort()` branch of `CHECK_NODE` (fatal, the process halts). -/
inductive Err where
  | mismatch
  | invalid_id
  | shape_mismatch (msg : String)
  | not_calculated (id : Nat)
  | has_gradient (id : Nat)
deriving DecidableEq, Repr

/-- Observable invocation events of the external operations:
`fwdCall id` records `nodes_[id]->func->forward(...)`;
`bwdCall id argVals argGrads gradsPassed` records
`cur_node.func->backward(cur_node.value, cur_node.grad, arg_values,
arg_grads)` for node `id`, where `argVals`/`argGrads` are the node
positions whose value/gradient buffers were in the two gathered lists
and `gradsPassed` the gradient buffer contents at call time. -/
inductive Ev where
  | fwdCall (id : Nat)
  | bwdCall (id : Nat) (argVals : List Nat) (argGrads : List Nat)
      (gradsPassed : List (Option TVal))
deriving DecidableEq, Repr

/-- Replace the element at index `i` (no-op when out of range). -/
def modifyAt {α : Type} : List α → Nat → (α → α) → List α
  | [], _, _ => []
  | x :: xs, 0, f => f x :: xs
  | x :: xs, i + 1, f => x :: modifyAt xs i f

/-- The value buffer of node `i` (`nodes_[i]->value`); `none` both for
an invalid tensor and for an out-of-range index. -/
def Graph.valueAt (g : Graph) (i : Nat) : Option TVal :=
  match g.nodes[i]? with
  | some n => n.value
  | none => none

/-- The gradient buffer of node `i` (`nodes_[i]->grad`). -/
def Graph.gradAt (g : Graph) (i : Nat) : Option TVal :=
  match g.nodes[i]? with
  | some n => n.grad
  | none => none

/-- The shape of node `i` (`nodes_[i]->shape`). -/
def Graph.shapeAt (g : Graph) (i : Nat) : Shape :=
  match g.nodes[i]? with
  | some n => n.shape
  | none => ⟨[], 1, 1⟩

/-- The operand positions of node `i` (`nodes_[i]->args`). -/
def Graph.argsAt (g : Graph) (i : Nat) : List Nat :=
  match g.nodes[i]? with
  | some n => n.args
  | none => []

/-- The consumer positions of node `i` (`nodes_[i]->sinks`). -/
def Graph.sinksAt (g : Graph) (i : Nat) : List Nat :=
  match g.nodes[i]? with
  | some n => n.sinks
  | none => []

/-- Write the value buffer of node `i`. -/
def Graph.setValue (g : Graph) (i : Nat) (v : Option TVal) : Graph :=
  { g with nodes := modifyAt g.nodes i (fun n => { n with value := v }) }

/-- Write the gradient buffer of node `i`. -/
def Graph.setGrad (g : Graph) (i : Nat) (v : Option TVal) : Graph :=
  { g with nodes := modifyAt g.nodes i (fun n => { n with grad := v }) }

/-- `CHECK_NODE(node)`: first the graph-identity test
(`node.g_ != this` throws a recoverable `runtime_error`, modelled by
`Err.mismatch`), then the range test (`node.id_ >= nodes_.size()`
calls `std::abort()`, modelled by `Err.invalid_id`). -/
def Graph.checkNode (g : Graph) (n : Node) : Option Err :=
  if n.g ≠ g.gid then some Err.mismatch
  else if g.nodes.length ≤ n.id then some Err.invalid_id
  else none

/-- The argument-gathering loop of `Graph::add_function`: runs
`CHECK_NODE` on each argument handle in order and collects `arg.id_`;
the first failing handle stops the call. -/
def Graph.checkArgs (g : Graph) : List Node → Except Err (List Nat)
  | [] => Except.ok []
  | n :: rest =>
    match g.checkNode n with
    | some e => Except.error e
    | none =>
      match g.checkArgs rest with
      | Except.error e => Except.error e
      | Except.ok ids => Except.ok (n.id :: ids)

/-- Append `ret_id` to the sink list of node `i`
(`nodes_[arg_id]->sinks.emplace_back(ret_id)`). -/
def Graph.appendSink (g : Graph) (i : Nat) (ret_id : Nat) : Graph :=
  { g with nodes := modifyAt g.nodes i (fun n => { n with sinks := n.sinks ++ [ret_id] }) }

/-- `Graph::add_function(func, args)`: check and gather the argument
ids and shapes, run the operation's shape inference (a failure is
propagated with no graph mutation), then append a consumer reference
from each operand to the new position `ret_id = nodes_.size()` and
append the new record `{shape, func, Tensor(), Tensor(), arg_ids, {}}`.
Returns the state at the point of the throw when it fails. -/
def Graph.add_function (g : Graph) (f : Func) (args : List Node) :
    Graph × Except Err Node :=
  match g.checkArgs args with
  | Except.error e => (g, Except.error e)
  | Except.ok arg_ids =>
    let arg_shapes := arg_ids.map (fun i => g.shapeAt i)
    match f.forward_shape arg_shapes with
    | Except.error m => (g, Except.error (Err.shape_mismatch m))
    | Except.ok ret_shape =>
      let ret_id := g.nodes.length
      let g1 := arg_ids.foldl (fun acc i => acc.appendSink i ret_id) g
      let g2 := { g1 with
        nodes := g1.nodes ++ [⟨ret_shape, f, none, none, arg_ids, []⟩] }
      (g2, Except.ok ⟨g.gid, ret_id⟩)

/-- Sequential state-threading of a step function over a list of node
positions, concatenating the emitted events (the argument loop of
`forward_recursive`). -/
def foldSteps (step : Graph → Nat → Graph × List Ev) :
    Graph → List Nat → Graph × List Ev
  | g, [] => (g, [])
  | g, a :: rest =>
    let p := step g a
    let q := foldSteps step p.1 rest
    (q.1, p.2 ++ q.2)

/-- The lambda `forward_recursive` of `Graph::forward`: a node whose
value is already valid returns at once; otherwise its operands are
realized recursively, their value buffers gathered, and
`n.func->forward(args)` invoked (recorded as an `Ev.fwdCall`) with the
result stored into the node's value slot.  The C++ recursion is
unbounded (it terminates because operand positions precede the node);
the embedding carries explicit `fuel` bounding the nesting depth, which
is irrelevant whenever `fuel` exceeds the node's position. -/
def Graph.forwardRec : Nat → Graph → Nat → Graph × List Ev
  | 0, g, _ => (g, [])
  | fuel + 1, g, id =>
    match g.nodes[id]? with
    | none => (g, [])
    | some n =>
      if n.value.isSome then (g, [])
      else
        let p := foldSteps (Graph.forwardRec fuel) g n.args
        let argVals := n.args.map (fun a => p.1.valueAt a)
        (p.1.setValue id (some (n.func.fwd argVals)), p.2 ++ [Ev.fwdCall id])

/-- `Graph::forward(node)`: `CHECK_NODE(node)`, then
`forward_recursive(node.id_)`, then return `nodes_[node.id_]->value`.
The returned data are the emitted events and the returned tensor. -/
def Graph.forward (fuel : Nat) (g : Graph) (n : Node) :
    Graph × Except Err (List Ev × Option TVal) :=
  match g.checkNode n with
  | some e => (g, Except.error e)
  | none =>
    let p := Graph.forwardRec fuel g n.id
    (p.1, Except.ok (p.2, p.1.valueAt n.id))

/-- Write the returned gradient-buffer contents back through the
gathered pointers (`arg_grads`), position by position. -/
def Graph.writeGrads : Graph → List Nat → List TVal → Graph
  | g, [], _ => g
  | g, _, [] => g
  | g, i :: is, v :: vs => Graph.writeGrads (g.setGrad i (some v)) is vs

/-- The lazy gradient creation of the operand loop:
`if (!arg_node.grad.valid()) arg_node.grad =
arg_node.value.device()->constant(arg_node.shape, 0);`. -/
def Graph.ensureGrad (g : Graph) (a : Nat) : Graph :=
  if (g.gradAt a).isSome then g
  else g.setGrad a (some (TVal.const (g.shapeAt a) 0))

/-- One invocation `cur_node.func->backward(cur_node.value,
cur_node.grad, arg_values, arg_grads)` where `done2` lists the node
positions whose buffers have been gathered into `arg_values` and
`arg_grads` so far, together with the write-back of the gradient
buffers the call mutates through the gathered pointers, and the
observable event recording the call. -/
def Graph.invokeBwd (g : Graph) (id : Nat) (done2 : List Nat) : Graph × Ev :=
  let vals := done2.map (fun x => g.valueAt x)
  let grads := done2.map (fun x => g.gradAt x)
  let newGrads :=
    match g.nodes[id]? with
    | some c => c.func.bwd c.value c.grad vals grads
    | none => []
  (g.writeGrads done2 newGrads, Ev.bwdCall id done2 done2 grads)

/-- The inner operand loop of `Graph::backward` for node `id`: for each
operand `a` (with `done` the operands already processed and their
buffers already in the gathered lists), lazily create the operand's
gradient when absent, extend both gathered lists with `a`'s buffers,
and invoke the operation's backward step — note: once per operand, with
the partial lists gathered so far, exactly as the loop in the source
places the call. -/
def Graph.processArgs (id : Nat) : Graph → List Nat → List Nat → Graph × List Ev
  | g, _, [] => (g, [])
  | g, done, a :: rest =>
    let g1 := g.ensureGrad a
    let q := g1.invokeBwd id (done ++ [a])
    let p := Graph.processArgs id q.1 (done ++ [a]) rest
    (p.1, q.2 :: p.2)

/-- One iteration of the backward sweep: node `id` is skipped when its
value was never realized; otherwise its operand loop runs. -/
def Graph.processNode (g : Graph) (id : Nat) : Graph × List Ev :=
  match g.nodes[id]? with
  | none => (g, [])
  | some cur =>
    if cur.value.isSome then Graph.processArgs id g [] cur.args
    else (g, [])

/-- The sweep `for (int id = node.id_; id >= 0; --id)` of
`Graph::backward`, from `id` down to `0`. -/
def Graph.backwardLoop : Graph → Nat → Graph × List Ev
  | g, 0 => Graph.processNode g 0
  | g, id + 1 =>
    let p := Graph.processNode g (id + 1)
    let q := Graph.backwardLoop p.1 id
    (q.1, p.2 ++ q.2)

/-- `Graph::backward(node)`: `CHECK_NODE`, the "not calculated in the
forward path" test, the "already has the gradient vector" test, the
all-ones seed `last_node.grad = device()->constant(last_node.shape, 1)`
and the decreasing sweep.  Returns the state current at the point of
the throw when it fails. -/
def Graph.backward (g : Graph) (n : Node) : Graph × Except Err (List Ev) :=
  match g.checkNode n with
  | some e => (g, Except.error e)
  | none =>
    match g.valueAt n.id with
    | none => (g, Except.error (Err.not_calculated n.id))
    | some _ =>
      if (g.gradAt n.id).isSome then (g, Except.error (Err.has_gradient n.id))
      else
        let g1 := g.setGrad n.id (some (TVal.const (g.shapeAt n.id) 1))
        let p := g1.backwardLoop n.id
        (p.1, Except.ok p.2)

/-- `Graph::get_value(node)`: `CHECK_NODE`, then `nodes_[id]->value`. -/
def Graph.get_value (g : Graph) (n : Node) : Except Err (Option TVal) :=
  match g.checkNode n with
  | some e => Except.error e
  | none => Except.ok (g.valueAt n.id)

/-- `Graph::get_gradient(node)`: `CHECK_NODE`, then `nodes_[id]->grad`. -/
def Graph.get_gradient (g : Graph) (n : Node) : Except Err (Option TVal) :=
  match g.checkNode n with
  | some e => Except.error e
  | none => Except.ok (g.gradAt n.id)

/-- The public mutating operations of the graph, for quantifying over
whole lifetimes (any interleaving of construction, forward and
backward calls). -/
inductive Op where
  | add (f : Func) (args : List Node)
  | fwd (fuel : Nat) (n : Node)
  | bwd (n : Node)

/-- Apply one operation; a failed call contributes its state at the
point of failure (equal to the entry state) and no events. -/
def Graph.step (g : Graph) : Op → Graph × List Ev
  | Op.add f ns => ((g.add_function f ns).1, [])
  | Op.fwd fuel n =>
    let p := Graph.forward fuel g n
    (p.1, match p.2 with
          | Except.ok r => r.1
          | Except.error _ => [])
  | Op.bwd n =>
    let p := g.backward n
    (p.1, match p.2 with
          | Except.ok tr => tr
          | Except.error _ => [])

/-- Run a sequence of operations, concatenating all emitted events. -/
def Graph.runOps : Graph → List Op → Graph × List Ev
  | g, [] => (g, [])
  | g, op :: rest =>
    let p := g.step op
    let q := Graph.runOps p.1 rest
    (q.1, p.2 ++ q.2)

/-- A fresh graph (`Graph()` — empty node sequence). -/
def emptyGraph (gid : Nat) : Graph := ⟨gid, []⟩

/-- The node position an event belongs to. -/
def Ev.node : Ev → Nat
  | Ev.fwdCall id => id
  | Ev.bwdCall id _ _ _ => id

/-- The gathered `arg_values` positions of a backward invocation. -/
def Ev.argValsOf : Ev → List Nat
  | Ev.fwdCall _ => []
  | Ev.bwdCall _ avs _ _ => avs

/-- The gathered `arg_grads` positions of a backward invocation. -/
def Ev.argGradsOf : Ev → List Nat
  | Ev.fwdCall _ => []
  | Ev.bwdCall _ _ ags _ => ags

/-- The gradient-buffer contents passed to a backward invocation. -/
def Ev.gradsOf : Ev → List (Option TVal)
  | Ev.fwdCall _ => []
  | Ev.bwdCall _ _ _ gps => gps

/-- Is this event a forward invocation of node `i`? -/
def isFwdCallOf (i : Nat) : Ev → Bool
  | Ev.fwdCall j => j == i
  | _ => false

/-- How many times node `i`'s operation's forward computation was
invoked in an event trace. -/
def fwdCount (tr : List Ev) (i : Nat) : Nat := tr.countP (isFwdCallOf i)

/-- Operand-ordering invariant (spec §3): every operand position of a
node is strictly less than the node's own position. -/
def Graph.wfArgs (g : Graph) : Prop := ∀ i, ∀ a ∈ g.argsAt i, a < i

/-- Consumer-ordering invariant: every consumer position recorded for
a node is strictly greater than the node's own position. -/
def Graph.wfSinks (g : Graph) : Prop := ∀ i, ∀ s ∈ g.sinksAt i, i < s

/-- Decidable check of `wfArgs` over the finitely many stored nodes. -/
def Graph.wfArgsB (g : Graph) : Bool :=
  (List.range g.nodes.length).all (fun i => (g.argsAt i).all (fun a => decide (a < i)))

/-- The immutable structural part of a graph state: identity, and each
node's shape, operand positions and consumer positions. -/
def Graph.structOf (g : Graph) : Nat × List (Shape × List Nat × List Nat) :=
  (g.gid, g.nodes.map (fun n => (n.shape, n.args, n.sinks)))

/-- The bundle of properties of one `forward_recursive(id)` call:
structure unchanged, realized values stay realized, a realized node is
never recomputed, each node's forward computation runs at most once in
the call, and every node that was computed is realized afterwards, lies
at or below the entry position and is in range. -/
def ForwardProps (g : Graph) (idTop : Nat) (g' : Graph) (tr : List Ev) : Prop :=
  g'.structOf = g.structOf ∧
  (∀ i, (g.valueAt i).isSome → (g'.valueAt i).isSome) ∧
  (∀ i, (g.valueAt i).isSome → fwdCount tr i = 0) ∧
  (∀ i, fwdCount tr i ≤ 1) ∧
  (∀ i, 1 ≤ fwdCount tr i → (g'.valueAt i).isSome ∧ i ≤ idTop ∧ i < g.nodes.length)

/-- The corresponding bundle for the sequential realization of an
operand list. -/
def FoldProps (g : Graph) (as : List Nat) (g' : Graph) (tr : List Ev) : Prop :=
  g'.structOf = g.structOf ∧
  (∀ i, (g.valueAt i).isSome → (g'.valueAt i).isSome) ∧
  (∀ i, (g.valueAt i).isSome → fwdCount tr i = 0) ∧
  (∀ i, fwdCount tr i ≤ 1) ∧
  (∀ i, 1 ≤ fwdCount tr i → (g'.valueAt i).isSome ∧ (∃ a ∈ as, i ≤ a) ∧ i < g.nodes.length)

/-- Lifetime invariant for the at-most-once property: the graph is
well-formed and each node's forward computation has run at most once so
far, with any node that ran now holding a realized value. -/
def LifeInv (g : Graph) (tr : List Ev) : Prop :=
  g.wfArgs ∧
  ∀ i, fwdCount tr i ≤ 1 ∧
    (1 ≤ fwdCount tr i → (g.valueAt i).isSome ∧ i < g.nodes.length)

/-- A zero-operand operation exposing a stored constant tensor (a leaf
input node, spec §6). -/
def leafF (s : Shape) (c : Int) : Func :=
  { name := "leaf"
    forward_shape := fun _ => Except.ok s
    fwd := fun _ => TVal.const s c
    bwd := fun _ _ _ grads => grads.map (fun og => og.getD (TVal.ext 0)) }

/-- An elementwise-add-style binary operation: shape inference demands
equal dims and compatible batch sizes of its two operands. -/
def add2F : Func :=
  { name := "add2"
    forward_shape := fun ss =>
      match ss with
      | [a, b] =>
        if a.has_same_dims b && a.has_compatible_batch b then Except.ok a
        else Except.error "shape mismatch"
      | _ => Except.error "arity mismatch"
    fwd := fun _ => TVal.ext 7
    bwd := fun _ _ _ grads => grads.map (fun og => og.getD (TVal.ext 0)) }

/-- The shape `[2,3] x1`. -/
def sh23 : Shape := ⟨[2, 3], 1, 6⟩

/-- The shape `[4,5] x1`. -/
def sh45 : Shape := ⟨[4, 5], 1, 20⟩

/-- Scenario: one leaf of shape `[2,3]` at position 0. -/
def gW0 : Graph := ((emptyGraph 0).add_function (leafF sh23 3) []).1

/-- Scenario: a second leaf of shape `[2,3]` at position 1. -/
def gW1 : Graph := (gW0.add_function (leafF sh23 5) []).1

/-- Scenario: the two-operand sum node at position 2. -/
def gW2 : Graph := (gW1.add_function add2F [⟨0, 0⟩, ⟨0, 1⟩]).1

/-- Scenario: after forward evaluation of the sum node. -/
def gWf : Graph := (Graph.forward 5 gW2 ⟨0, 2⟩).1

/-- Scenario: after backward differentiation from the sum node. -/
def gWb : Graph := (gWf.backward ⟨0, 2⟩).1

/-- The event trace the backward sweep of the scenario emits: node 2's
operation's backward step runs twice, first with the 1-element partial
lists, then with the full 2-element lists. -/
def bwTr : List Ev :=
  [Ev.bwdCall 2 [0] [0] [some (TVal.const sh23 0)],
   Ev.bwdCall 2 [0, 1] [0, 1] [some (TVal.const sh23 0), some (TVal.const sh23 0)]]

/-- Scenario for shape mismatch: `gW1` extended with a `[4,5]` leaf at
position 2. -/
def gMis : Graph := (gW1.add_function (leafF sh45 1) []).1

/-! ### Basic lemmas about `modifyAt` -/

theorem modifyAt_length {α : Type} (l : List α) (i : Nat) (f : α → α) :
    (modifyAt l i f).length = l.length := by
  induction l generalizing i with
  | nil => rfl
  | cons x xs ih =>
    cases i with
    | zero => rfl
    | succ i => simp [modifyAt, ih]

theorem modifyAt_getElem? {α : Type} (l : List α) (i j : Nat) (f : α → α) :
    (modifyAt l i f)[j]? = if j = i then (l[j]?).map f else l[j]? := by
  induction l generalizing i j with
  | nil => simp [modifyAt]
  | cons x xs ih =>
    cases i with
    | zero =>
      cases j with
      | zero => simp [modifyAt]
      | succ j => simp [modifyAt]
    | succ i =>
      cases j with
      | zero => simp [modifyAt]
      | succ j =>
        simp only [modifyAt, List.getElem?_cons_succ, ih i j, Nat.succ.injEq]

theorem modifyAt_map {α β : Type} (l : List α) (i : Nat) (f : α → α) (p : α → β)
    (hp : ∀ x, p (f x) = p x) : (modifyAt l i f).map p = l.map p := by
  induction l generalizing i with
  | nil => rfl
  | cons x xs ih =>
    cases i with
    | zero => simp [modifyAt, hp]
    | succ i => simp [modifyAt, ih]

/-! ### Accessor lemmas -/

theorem Graph.argsAt_of_get? {g : Graph} {i : Nat} {n : NodeInfo}
    (h : g.nodes[i]? = some n) : g.argsAt i = n.args := by
  simp [Graph.argsAt, h]

theorem Graph.valueAt_of_get? {g : Graph} {i : Nat} {n : NodeInfo}
    (h : g.nodes[i]? = some n) : g.valueAt i = n.value := by
  simp [Graph.valueAt, h]

theorem Graph.get?_lt_length {g : Graph} {i : Nat} {n : NodeInfo}
    (h : g.nodes[i]? = some n) : i < g.nodes.length := by
  exact (List.getElem?_eq_some.mp h).1

theorem Graph.get?_of_lt_length {g : Graph} {i : Nat} (h : i < g.nodes.length) :
    ∃ n, g.nodes[i]? = some n := by
  exact ⟨g.nodes[i], List.getElem?_eq_getElem h⟩

/-! ### Effects of the single-buffer writers -/

theorem Graph.gid_setValue (g : Graph) (i : Nat) (v : Option TVal) :
    (g.setValue i v).gid = g.gid := rfl

theorem Graph.length_setValue (g : Graph) (i : Nat) (v : Option TVal) :
    (g.setValue i v).nodes.length = g.nodes.length := modifyAt_length _ _ _

theorem Graph.valueAt_setValue_same {g : Graph} {i : Nat} (v : Option TVal)
    (h : i < g.nodes.length) : (g.setValue i v).valueAt i = v := by
  obtain ⟨n, hn⟩ := Graph.get?_of_lt_length h
  simp [Graph.valueAt, Graph.setValue, modifyAt_getElem?, hn]

theorem Graph.valueAt_setValue_other {g : Graph} {i j : Nat} (v : Option TVal)
    (h : j ≠ i) : (g.setValue i v).valueAt j = g.valueAt j := by
  simp [Graph.valueAt, Graph.setValue, modifyAt_getElem?, h]

theorem Graph.gradAt_setValue (g : Graph) (i j : Nat) (v : Option TVal) :
    (g.setValue i v).gradAt j = g.gradAt j := by
  by_cases h : j = i
  · subst h
    cases hn : g.nodes[j]? with
    | none => simp [Graph.gradAt, Graph.setValue, modifyAt_getElem?, hn]
    | some n => simp [Graph.gradAt, Graph.setValue, modifyAt_getElem?, hn]
  · simp [Graph.gradAt, Graph.setValue, modifyAt_getElem?, h]

theorem Graph.gid_setGrad (g : Graph) (i : Nat) (v : Option TVal) :
    (g.setGrad i v).gid = g.gid := rfl

theorem Graph.length_setGrad (g : Graph) (i : Nat) (v : Option TVal) :
    (g.setGrad i v).nodes.length = g.nodes.length := modifyAt_length _ _ _

theorem Graph.gradAt_setGrad_same {g : Graph} {i : Nat} (v : Option TVal)
    (h : i < g.nodes.length) : (g.setGrad i v).gradAt i = v := by
  obtain ⟨n, hn⟩ := Graph.get?_of_lt_length h
  simp [Graph.gradAt, Graph.setGrad, modifyAt_getElem?, hn]

theorem Graph.gradAt_setGrad_other {g : Graph} {i j : Nat} (v : Option TVal)
    (h : j ≠ i) : (g.setGrad i v).gradAt j = g.gradAt j := by
  simp [Graph.gradAt, Graph.setGrad, modifyAt_getElem?, h]

theorem Graph.valueAt_setGrad (g : Graph) (i j : Nat) (v : Option TVal) :
    (g.setGrad i v).valueAt j = g.valueAt j := by
  by_cases h : j = i
  · subst h
    cases hn : g.nodes[j]? with
    | none => simp [Graph.valueAt, Graph.setGrad, modifyAt_getElem?, hn]
    | some n => simp [Graph.valueAt, Graph.setGrad, modifyAt_getElem?, hn]
  · simp [Graph.valueAt, Graph.setGrad, modifyAt_getElem?, h]

/-! ### Structure preservation -/

theorem Graph.structOf_setValue (g : Graph) (i : Nat) (v : Option TVal) :
    (g.setValue i v).structOf = g.structOf := by
  simp only [Graph.structOf, Graph.setValue]
  exact congrArg _ (modifyAt_map _ _ _ _ (fun x => rfl))

theorem Graph.structOf_setGrad (g : Graph) (i : Nat) (v : Option TVal) :
    (g.setGrad i v).structOf = g.structOf := by
  simp only [Graph.structOf, Graph.setGrad]
  exact congrArg _ (modifyAt_map _ _ _ _ (fun x => rfl))

theorem Graph.structOf_gid {g g' : Graph} (h : g'.structOf = g.structOf) :
    g'.gid = g.gid := congrArg Prod.fst h

theorem Graph.structOf_length {g g' : Graph} (h : g'.structOf = g.structOf) :
    g'.nodes.length = g.nodes.length := by
  have := congrArg (fun p => p.2.length) h
  simpa [Graph.structOf] using this

theorem Graph.structOf_get?_map {g g' : Graph} (h : g'.structOf = g.structOf) (i : Nat) :
    (g'.nodes[i]?).map (fun n => (n.shape, n.args, n.sinks)) =
      (g.nodes[i]?).map (fun n => (n.shape, n.args, n.sinks)) := by
  have h2 := congrArg Prod.snd h
  simp only [Graph.structOf] at h2
  rw [← List.getElem?_map, ← List.getElem?_map, h2]

theorem Graph.structOf_shapeAt {g g' : Graph} (h : g'.structOf = g.structOf) (i : Nat) :
    g'.shapeAt i = g.shapeAt i := by
  have hm := Graph.structOf_get?_map h i
  cases hg' : g'.nodes[i]? with
  | none =>
    cases hg : g.nodes[i]? with
    | none => simp [Graph.shapeAt, hg, hg']
    | some n => rw [hg, hg'] at hm; exact Option.noConfusion hm
  | some n' =>
    cases hg : g.nodes[i]? with
    | none => rw [hg, hg'] at hm; exact Option.noConfusion hm
    | some n =>
      rw [hg, hg'] at hm
      simp only [Option.map_some'] at hm
      simp [Graph.shapeAt, hg, hg', (Prod.mk.injEq _ _ _ _).mp (Option.some.inj hm)]

theorem Graph.structOf_argsAt {g g' : Graph} (h : g'.structOf = g.structOf) (i : Nat) :
    g'.argsAt i = g.argsAt i := by
  have hm := Graph.structOf_get?_map h i
  cases hg' : g'.nodes[i]? with
  | none =>
    cases hg : g.nodes[i]? with
    | none => simp [Graph.argsAt, hg, hg']
    | some n => rw [hg, hg'] at hm; exact Option.noConfusion hm
  | some n' =>
    cases hg : g.nodes[i]? with
    | none => rw [hg, hg'] at hm; exact Option.noConfusion hm
    | some n =>
      rw [hg, hg'] at hm
      simp only [Option.map_some'] at hm
      have := Option.some.inj hm
      simp [Graph.argsAt, hg, hg']
      exact congrArg (fun p => p.2.1) this

theorem Graph.structOf_sinksAt {g g' : Graph} (h : g'.structOf = g.structOf) (i : Nat) :
    g'.sinksAt i = g.sinksAt i := by
  have hm := Graph.structOf_get?_map h i
  cases hg' : g'.nodes[i]? with
  | none =>
    cases hg : g.nodes[i]? with
    | none => simp [Graph.sinksAt, hg, hg']
    | some n => rw [hg, hg'] at hm; exact Option.noConfusion hm
  | some n' =>
    cases hg : g.nodes[i]? with
    | none => rw [hg, hg'] at hm; exact Option.noConfusion hm
    | some n =>
      rw [hg, hg'] at hm
      simp only [Option.map_some'] at hm
      have := Option.some.inj hm
      simp [Graph.sinksAt, hg, hg']
      exact congrArg (fun p => p.2.2) this

theorem Graph.wfArgs_of_structOf {g g' : Graph} (h : g'.structOf = g.structOf)
    (hw : g.wfArgs) : g'.wfArgs := by
  intro i a ha
  exact hw i a (by rwa [Graph.structOf_argsAt h] at ha)

theorem Graph.wfSinks_of_structOf {g g' : Graph} (h : g'.structOf = g.structOf)
    (hw : g.wfSinks) : g'.wfSinks := by
  intro i s hs
  exact hw i s (by rwa [Graph.structOf_sinksAt h] at hs)

/-! ### `writeGrads` lemmas -/

theorem Graph.structOf_writeGrads : ∀ (is : List Nat) (g : Graph) (vs : List TVal),
    (g.writeGrads is vs).structOf = g.structOf
  | [], g, vs => by cases vs <;> rfl
  | _ :: _, g, [] => rfl
  | i :: is, g, v :: vs => by
    rw [Graph.writeGrads, Graph.structOf_writeGrads is, Graph.structOf_setGrad]

theorem Graph.valueAt_writeGrads : ∀ (is : List Nat) (g : Graph) (vs : List TVal) (x : Nat),
    (g.writeGrads is vs).valueAt x = g.valueAt x
  | [], g, vs, x => by cases vs <;> rfl
  | _ :: _, g, [], x => rfl
  | i :: is, g, v :: vs, x => by
    rw [Graph.writeGrads, Graph.valueAt_writeGrads is, Graph.valueAt_setGrad]

theorem Graph.gradAt_writeGrads_not_mem :
    ∀ (is : List Nat) (g : Graph) (vs : List TVal) (x : Nat), x ∉ is →
      (g.writeGrads is vs).gradAt x = g.gradAt x
  | [], g, vs, x, _ => by cases vs <;> rfl
  | _ :: _, g, [], x, _ => rfl
  | i :: is, g, v :: vs, x, hx => by
    rw [Graph.writeGrads,
      Graph.gradAt_writeGrads_not_mem is _ _ x (fun h => hx (List.mem_cons_of_mem i h)),
      Graph.gradAt_setGrad_other]
    exact fun h => hx (h ▸ List.mem_cons_self i is)

theorem Graph.gradAt_setGrad_some_isSome (g : Graph) (i x : Nat) (w : TVal)
    (h : (g.gradAt x).isSome) : ((g.setGrad i (some w)).gradAt x).isSome := by
  by_cases hx : x = i
  · subst hx
    by_cases hl : x < g.nodes.length
    · rw [Graph.gradAt_setGrad_same _ hl]; rfl
    · rw [Graph.gradAt, List.getElem?_eq_none_iff.mpr (Nat.le_of_not_lt hl)] at h
      simp at h
  · rwa [Graph.gradAt_setGrad_other _ hx]

theorem Graph.gradAt_writeGrads_isSome :
    ∀ (is : List Nat) (g : Graph) (vs : List TVal) (x : Nat),
      (g.gradAt x).isSome → ((g.writeGrads is vs).gradAt x).isSome
  | [], g, vs, x, h => by cases vs <;> exact h
  | _ :: _, g, [], x, h => h
  | i :: is, g, v :: vs, x, h => by
    rw [Graph.writeGrads]
    exact Graph.gradAt_writeGrads_isSome is _ vs x (Graph.gradAt_setGrad_some_isSome g i x v h)

/-! ### `appendSink` and `add_function` lemmas -/

theorem Graph.gid_appendSink (g : Graph) (i r : Nat) :
    (g.appendSink i r).gid = g.gid := rfl

theorem Graph.length_appendSink (g : Graph) (i r : Nat) :
    (g.appendSink i r).nodes.length = g.nodes.length := modifyAt_length _ _ _

theorem Graph.argsAt_appendSink (g : Graph) (i r j : Nat) :
    (g.appendSink i r).argsAt j = g.argsAt j := by
  by_cases h : j = i
  · subst h
    cases hn : g.nodes[j]? with
    | none => simp [Graph.argsAt, Graph.appendSink, modifyAt_getElem?, hn]
    | some n => simp [Graph.argsAt, Graph.appendSink, modifyAt_getElem?, hn]
  · simp [Graph.argsAt, Graph.appendSink, modifyAt_getElem?, h]

theorem Graph.valueAt_appendSink (g : Graph) (i r j : Nat) :
    (g.appendSink i r).valueAt j = g.valueAt j := by
  by_cases h : j = i
  · subst h
    cases hn : g.nodes[j]? with
    | none => simp [Graph.valueAt, Graph.appendSink, modifyAt_getElem?, hn]
    | some n => simp [Graph.valueAt, Graph.appendSink, modifyAt_getElem?, hn]
  · simp [Graph.valueAt, Graph.appendSink, modifyAt_getElem?, h]

theorem Graph.sinksAt_appendSink_other (g : Graph) (i r j : Nat) (h : j ≠ i) :
    (g.appendSink i r).sinksAt j = g.sinksAt j := by
  simp [Graph.sinksAt, Graph.appendSink, modifyAt_getElem?, h]

theorem Graph.sinksAt_appendSink_mem (g : Graph) (i r j : Nat) (s : Nat)
    (hs : s ∈ (g.appendSink i r).sinksAt j) : s ∈ g.sinksAt j ∨ s = r := by
  by_cases h : j = i
  · subst h
    cases hn : g.nodes[j]? with
    | none =>
      rw [Graph.sinksAt, Graph.appendSink] at hs
      simp only [modifyAt_getElem?, if_pos rfl, hn] at hs
      simp at hs
    | some n =>
      rw [Graph.sinksAt, Graph.appendSink] at hs
      simp only [modifyAt_getElem?, if_pos rfl, hn, Option.map_some'] at hs
      rcases List.mem_append.mp hs with h1 | h2
      · exact Or.inl (by simp [Graph.sinksAt, hn, h1])
      · exact Or.inr (by simpa using h2)
  · rw [Graph.sinksAt_appendSink_other g i r j h] at hs
    exact Or.inl hs

/-- The fold appending the new position to every operand's sink list. -/
theorem Graph.foldAppendSink_props (r : Nat) :
    ∀ (ids : List Nat) (g : Graph),
      let g1 := ids.foldl (fun acc i => acc.appendSink i r) g
      g1.gid = g.gid ∧ g1.nodes.length = g.nodes.length ∧
      (∀ j, g1.argsAt j = g.argsAt j) ∧ (∀ j, g1.valueAt j = g.valueAt j) ∧
      (∀ j s, s ∈ g1.sinksAt j → s ∈ g.sinksAt j ∨ s = r)
  | [], g => ⟨rfl, rfl, fun _ => rfl, fun _ => rfl, fun _ _ h => Or.inl h⟩
  | i :: ids, g => by
    intro g1
    obtain ⟨h1, h2, h3, h4, h5⟩ := Graph.foldAppendSink_props r ids (g.appendSink i r)
    refine ⟨h1.trans (Graph.gid_appendSink g i r),
      h2.trans (Graph.length_appendSink g i r),
      fun j => (h3 j).trans (Graph.argsAt_appendSink g i r j),
      fun j => (h4 j).trans (Graph.valueAt_appendSink g i r j), fun j s hs => ?_⟩
    rcases h5 j s hs with h | h
    · exact Graph.sinksAt_appendSink_mem g i r j s h
    · exact Or.inr h

theorem Graph.checkNode_none_iff (g : Graph) (n : Node) :
    g.checkNode n = none ↔ n.g = g.gid ∧ n.id < g.nodes.length := by
  rw [Graph.checkNode]
  by_cases h1 : n.g = g.gid
  · by_cases h2 : g.nodes.length ≤ n.id
    · simp [h1, h2, Nat.not_lt_of_le h2]
    · simp [h1, h2, Nat.lt_of_not_le h2]
  · simp [h1]

theorem Graph.checkArgs_ok_lt : ∀ (args : List Node) (g : Graph) (ids : List Nat),
    g.checkArgs args = Except.ok ids → ∀ i ∈ ids, i < g.nodes.length
  | [], g, ids, h => by
    rw [Graph.checkArgs] at h
    cases h
    intro i hi
    simp at hi
  | n :: rest, g, ids, h => by
    rw [Graph.checkArgs] at h
    cases hc : g.checkNode n with
    | some e => rw [hc] at h; exact Except.noConfusion h
    | none =>
      rw [hc] at h
      cases hr : g.checkArgs rest with
      | error e => rw [hr] at h; exact Except.noConfusion h
      | ok ids0 =>
        rw [hr] at h
        cases h
        intro i hi
        rcases List.mem_cons.mp hi with h | h
        · exact h ▸ ((Graph.checkNode_none_iff g n).mp hc).2
        · exact Graph.checkArgs_ok_lt rest g ids0 hr i h

theorem Graph.add_function_of_checkArgs_error (g : Graph) (f : Func) (args : List Node)
    (e : Err) (hca : g.checkArgs args = Except.error e) :
    g.add_function f args = (g, Except.error e) := by
  rw [Graph.add_function, hca]

theorem Graph.add_function_of_shape_error (g : Graph) (f : Func) (args : List Node)
    (ids : List Nat) (m : String) (hca : g.checkArgs args = Except.ok ids)
    (hfs : f.forward_shape (ids.map (fun i => g.shapeAt i)) = Except.error m) :
    g.add_function f args = (g, Except.error (Err.shape_mismatch m)) := by
  rw [Graph.add_function, hca]
  simp only [hfs]

theorem Graph.add_function_of_shape_ok (g : Graph) (f : Func) (args : List Node)
    (ids : List Nat) (sh : Shape) (hca : g.checkArgs args = Except.ok ids)
    (hfs : f.forward_shape (ids.map (fun i => g.shapeAt i)) = Except.ok sh) :
    g.add_function f args =
      ({ gid := (ids.foldl (fun acc i => acc.appendSink i g.nodes.length) g).gid,
         nodes := (ids.foldl (fun acc i => acc.appendSink i g.nodes.length) g).nodes
           ++ [⟨sh, f, none, none, ids, []⟩] },
       Except.ok ⟨g.gid, g.nodes.length⟩) := by
  rw [Graph.add_function, hca]
  simp only [hfs]

theorem Graph.add_function_error (g : Graph) (f : Func) (args : List Node) (e : Err)
    (h : (g.add_function f args).2 = Except.error e) : (g.add_function f args).1 = g := by
  cases hca : g.checkArgs args with
  | error e0 => rw [Graph.add_function_of_checkArgs_error g f args e0 hca]
  | ok ids =>
    cases hfs : f.forward_shape (ids.map (fun i => g.shapeAt i)) with
    | error m => rw [Graph.add_function_of_shape_error g f args ids m hca hfs]
    | ok sh =>
      rw [Graph.add_function_of_shape_ok g f args ids sh hca hfs] at h
      exact Except.noConfusion h

theorem Graph.add_function_ok (g : Graph) (f : Func) (args : List Node)
    (g' : Graph) (nd : Node) (h : g.add_function f args = (g', Except.ok nd)) :
    ∃ ids sh, g.checkArgs args = Except.ok ids ∧
      f.forward_shape (ids.map (fun i => g.shapeAt i)) = Except.ok sh ∧
      nd = ⟨g.gid, g.nodes.length⟩ ∧
      g' = { gid := (ids.foldl (fun acc i => acc.appendSink i g.nodes.length) g).gid,
             nodes := (ids.foldl (fun acc i => acc.appendSink i g.nodes.length) g).nodes
               ++ [⟨sh, f, none, none, ids, []⟩] } := by
  cases hca : g.checkArgs args with
  | error e0 =>
    rw [Graph.add_function_of_checkArgs_error g f args e0 hca] at h
    exact Prod.noConfusion h (fun _ he => Except.noConfusion he)
  | ok ids =>
    cases hfs : f.forward_shape (ids.map (fun i => g.shapeAt i)) with
    | error m =>
      rw [Graph.add_function_of_shape_error g f args ids m hca hfs] at h
      exact Prod.noConfusion h (fun _ he => Except.noConfusion he)
    | ok sh =>
      rw [Graph.add_function_of_shape_ok g f args ids sh hca hfs] at h
      have h1 := congrArg Prod.fst h
      have h2 := congrArg Prod.snd h
      simp only at h1 h2
      exact ⟨ids, sh, rfl, hfs, (Except.ok.inj h2).symm, h1.symm⟩

/-- `wfArgs` from its decidable check. -/
theorem Graph.wfArgs_of_b {g : Graph} (h : g.wfArgsB = true) : g.wfArgs := by
  intro i a ha
  by_cases hi : i < g.nodes.length
  · have h1 := (List.all_eq_true.mp h) i (List.mem_range.mpr hi)
    have h2 := (List.all_eq_true.mp h1) a ha
    exact of_decide_eq_true h2
  · rw [Graph.argsAt] at ha
    rw [List.getElem?_eq_none_iff.mpr (Nat.le_of_not_lt hi)] at ha
    simp at ha

/-! ### Forward-evaluation lemmas -/

theorem fwdCount_nil (i : Nat) : fwdCount [] i = 0 := rfl

theorem fwdCount_append (t1 t2 : List Ev) (i : Nat) :
    fwdCount (t1 ++ t2) i = fwdCount t1 i + fwdCount t2 i := List.countP_append _ _ _

theorem fwdCount_single_self (id : Nat) : fwdCount [Ev.fwdCall id] id = 1 := by
  simp [fwdCount, List.countP, List.countP.go, isFwdCallOf]

theorem fwdCount_single_other (id i : Nat) (h : i ≠ id) :
    fwdCount [Ev.fwdCall id] i = 0 := by
  simp only [fwdCount, List.countP, List.countP.go, isFwdCallOf]
  rw [beq_eq_false_iff_ne.mpr (Ne.symm h)]
  rfl

theorem Graph.valueAt_setValue_some_isSome (g : Graph) (i x : Nat) (w : TVal)
    (h : (g.valueAt x).isSome) : ((g.setValue i (some w)).valueAt x).isSome := by
  by_cases hx : x = i
  · subst hx
    by_cases hl : x < g.nodes.length
    · rw [Graph.valueAt_setValue_same _ hl]; rfl
    · rw [Graph.valueAt, List.getElem?_eq_none_iff.mpr (Nat.le_of_not_lt hl)] at h
      simp at h
  · rwa [Graph.valueAt_setValue_other _ hx]

theorem Graph.structOf_foldSteps (step : Graph → Nat → Graph × List Ev)
    (H : ∀ g a, ((step g a).1).structOf = g.structOf) :
    ∀ (as : List Nat) (g : Graph), ((foldSteps step g as).1).structOf = g.structOf
  | [], g => rfl
  | a :: rest, g => by
    rw [foldSteps]
    exact (Graph.structOf_foldSteps step H rest (step g a).1).trans (H g a)

theorem Graph.structOf_forwardRec (fuel : Nat) :
    ∀ (g : Graph) (id : Nat), ((Graph.forwardRec fuel g id).1).structOf = g.structOf := by
  induction fuel with
  | zero => intro g id; rfl
  | succ fuel ih =>
    intro g id
    rw [Graph.forwardRec]
    cases hn : g.nodes[id]? with
    | none => rfl
    | some n =>
      by_cases hv : n.value.isSome
      · simp only [hv, if_true]
      · simp only [hv, Bool.false_eq_true, if_false]
        exact (Graph.structOf_setValue _ _ _).trans
          (Graph.structOf_foldSteps _ (fun g a => ih g a) n.args g)



theorem ForwardProps.refl (g : Graph) (idTop : Nat) : ForwardProps g idTop g [] :=
  ⟨rfl, fun _ h => h, fun _ _ => rfl, fun _ => Nat.zero_le 1,
   fun i hi => absurd hi (by simp [fwdCount])⟩

theorem foldSteps_props (step : Graph → Nat → Graph × List Ev)
    (H : ∀ g a, g.wfArgs → ForwardProps g a (step g a).1 (step g a).2) :
    ∀ (as : List Nat) (g : Graph), g.wfArgs →
      FoldProps g as (foldSteps step g as).1 (foldSteps step g as).2 := by
  intro as
  induction as with
  | nil =>
    intro g _
    exact ⟨rfl, fun _ h => h, fun _ _ => rfl, fun _ => Nat.zero_le 1,
      fun i hi => absurd hi (by simp [foldSteps, fwdCount])⟩
  | cons a rest ih =>
    intro g hw
    obtain ⟨hs1, hm1, hz1, hc1, hr1⟩ := H g a hw
    have hw1 : (step g a).1.wfArgs := Graph.wfArgs_of_structOf hs1 hw
    obtain ⟨hs2, hm2, hz2, hc2, hr2⟩ := ih (step g a).1 hw1
    show FoldProps g (a :: rest) (foldSteps step (step g a).1 rest).1
      ((step g a).2 ++ (foldSteps step (step g a).1 rest).2)
    refine ⟨hs2.trans hs1, fun i h => hm2 i (hm1 i h), fun i h => ?_, fun i => ?_,
      fun i hi => ?_⟩
    · rw [fwdCount_append, hz1 i h, hz2 i (hm1 i h)]
    · rw [fwdCount_append]
      rcases Nat.eq_zero_or_pos (fwdCount (step g a).2 i) with h0 | h1
      · rw [h0]; exact Nat.le_trans (Nat.le_of_eq (Nat.zero_add _)) (hc2 i)
      · rw [hz2 i (hr1 i h1).1]
        exact hc1 i
    · rw [fwdCount_append] at hi
      rcases Nat.eq_zero_or_pos (fwdCount (step g a).2 i) with h0 | h1
      · rw [h0, Nat.zero_add] at hi
        obtain ⟨hsm, ⟨b, hb, hib⟩, hlen⟩ := hr2 i hi
        exact ⟨hsm, ⟨b, List.mem_cons_of_mem a hb, hib⟩,
          by rwa [Graph.structOf_length hs1] at hlen⟩
      · obtain ⟨hsm, hia, hlen⟩ := hr1 i h1
        exact ⟨hm2 i hsm, ⟨a, List.mem_cons_self a rest, hia⟩, hlen⟩

theorem Graph.forwardRec_props (fuel : Nat) :
    ∀ (g : Graph) (id : Nat), g.wfArgs →
      ForwardProps g id (Graph.forwardRec fuel g id).1 (Graph.forwardRec fuel g id).2 := by
  induction fuel with
  | zero => intro g id _; exact ForwardProps.refl g id
  | succ fuel ih =>
    intro g id hw
    rw [Graph.forwardRec]
    cases hn : g.nodes[id]? with
    | none => exact ForwardProps.refl g id
    | some n =>
      by_cases hv : n.value.isSome
      · simp only [hv, if_true]
        exact ForwardProps.refl g id
      · simp only [hv, Bool.false_eq_true, if_false]
        obtain ⟨hs, hm, hz, hc, hr⟩ :=
          foldSteps_props (Graph.forwardRec fuel) (fun g a hw => ih g a hw) n.args g hw
        have hlen : id < g.nodes.length := Graph.get?_lt_length hn
        have hvid : ¬ (g.valueAt id).isSome := by
          rw [Graph.valueAt_of_get? hn]; exact hv
        have hlenP : (foldSteps (Graph.forwardRec fuel) g n.args).1.nodes.length
            = g.nodes.length := Graph.structOf_length hs
        refine ⟨(Graph.structOf_setValue _ _ _).trans hs,
          fun i h => Graph.valueAt_setValue_some_isSome _ _ _ _ (hm i h),
          fun i h => ?_, fun i => ?_, fun i hi => ?_⟩
        · rw [fwdCount_append, hz i h, fwdCount_single_other id i ?_]
          intro he
          exact hvid (he ▸ h)
        · rw [fwdCount_append]
          by_cases hiid : i = id
          · subst hiid
            have h0 : fwdCount (foldSteps (Graph.forwardRec fuel) g n.args).2 i = 0 := by
              by_contra hne
              obtain ⟨_, ⟨a, ha, hia⟩, _⟩ := hr i (Nat.pos_of_ne_zero hne)
              have := hw i a (by rwa [Graph.argsAt_of_get? hn])
              exact Nat.not_lt.mpr hia this
            rw [h0, fwdCount_single_self]
          · rw [fwdCount_single_other id i hiid]
            exact hc i
        · rw [fwdCount_append] at hi
          by_cases hiid : i = id
          · subst hiid
            refine ⟨?_, Nat.le_refl i, hlen⟩
            have : (Graph.valueAt ((foldSteps (Graph.forwardRec fuel) g n.args).1.setValue i
                (some (n.func.fwd (n.args.map (fun a =>
                  (foldSteps (Graph.forwardRec fuel) g n.args).1.valueAt a))))) i).isSome := by
              rw [Graph.valueAt_setValue_same _ (by rwa [hlenP])]
              rfl
            exact this
          · rw [fwdCount_single_other id i hiid, Nat.add_zero] at hi
            obtain ⟨hsm, ⟨a, ha, hia⟩, hl⟩ := hr i hi
            exact ⟨Graph.valueAt_setValue_some_isSome _ _ _ _ hsm,
              Nat.le_of_lt (Nat.lt_of_le_of_lt hia
                (hw id a (by rwa [Graph.argsAt_of_get? hn]))), hl⟩

/-- After one `forward_recursive(id)` call with positive fuel on an
in-range node, the node's value is realized. -/
theorem Graph.forwardRec_sets_value (fuel : Nat) (g : Graph) (id : Nat)
    (hf : 1 ≤ fuel) (hid : id < g.nodes.length) :
    (((Graph.forwardRec fuel g id).1).valueAt id).isSome := by
  cases fuel with
  | zero => exact absurd hf (by decide)
  | succ fuel =>
    rw [Graph.forwardRec]
    obtain ⟨n, hn⟩ := Graph.get?_of_lt_length hid
    rw [hn]
    by_cases hv : n.value.isSome
    · simp only [hv, if_true]
      rw [Graph.valueAt_of_get? hn]
      exact hv
    · simp only [hv, Bool.false_eq_true, if_false]
      have hlenP : (foldSteps (Graph.forwardRec fuel) g n.args).1.nodes.length
          = g.nodes.length :=
        Graph.structOf_length (Graph.structOf_foldSteps _
          (fun g a => Graph.structOf_forwardRec fuel g a) n.args g)
      rw [Graph.valueAt_setValue_same _ (by rwa [hlenP])]
      rfl

theorem Graph.forward_of_check_some (fuel : Nat) (g : Graph) (n : Node) (e : Err)
    (h : g.checkNode n = some e) : Graph.forward fuel g n = (g, Except.error e) := by
  rw [Graph.forward, h]

theorem Graph.forward_of_check_none (fuel : Nat) (g : Graph) (n : Node)
    (h : g.checkNode n = none) :
    Graph.forward fuel g n = ((Graph.forwardRec fuel g n.id).1,
      Except.ok ((Graph.forwardRec fuel g n.id).2,
        ((Graph.forwardRec fuel g n.id).1).valueAt n.id)) := by
  rw [Graph.forward, h]

/-! ### Backward-sweep lemmas: `ensureGrad` and `invokeBwd` -/

theorem Graph.structOf_ensureGrad (g : Graph) (a : Nat) :
    (g.ensureGrad a).structOf = g.structOf := by
  rw [Graph.ensureGrad]
  split
  · rfl
  · exact Graph.structOf_setGrad g a _

theorem Graph.valueAt_ensureGrad (g : Graph) (a x : Nat) :
    (g.ensureGrad a).valueAt x = g.valueAt x := by
  rw [Graph.ensureGrad]
  split
  · rfl
  · exact Graph.valueAt_setGrad g a x _

theorem Graph.gradAt_ensureGrad_other (g : Graph) (a x : Nat) (h : x ≠ a) :
    (g.ensureGrad a).gradAt x = g.gradAt x := by
  rw [Graph.ensureGrad]
  split
  · rfl
  · exact Graph.gradAt_setGrad_other _ h

theorem Graph.gradAt_ensureGrad_isSome (g : Graph) (a : Nat) (h : a < g.nodes.length) :
    ((g.ensureGrad a).gradAt a).isSome := by
  rw [Graph.ensureGrad]
  split
  · assumption
  · rw [Graph.gradAt_setGrad_same _ h]
    rfl

theorem Graph.ensureGrad_of_none (g : Graph) (a : Nat) (h : g.gradAt a = none) :
    g.ensureGrad a = g.setGrad a (some (TVal.const (g.shapeAt a) 0)) := by
  rw [Graph.ensureGrad, if_neg]
  rw [h]
  simp

theorem Graph.gradAt_ensureGrad_isSome_mono (g : Graph) (a x : Nat)
    (h : (g.gradAt x).isSome) : ((g.ensureGrad a).gradAt x).isSome := by
  rw [Graph.ensureGrad]
  split
  · exact h
  · exact Graph.gradAt_setGrad_some_isSome g a x _ h

theorem Graph.structOf_invokeBwd (g : Graph) (id : Nat) (done2 : List Nat) :
    ((g.invokeBwd id done2).1).structOf = g.structOf :=
  Graph.structOf_writeGrads done2 g _

theorem Graph.valueAt_invokeBwd (g : Graph) (id : Nat) (done2 : List Nat) (x : Nat) :
    ((g.invokeBwd id done2).1).valueAt x = g.valueAt x :=
  Graph.valueAt_writeGrads done2 g _ x

theorem Graph.gradAt_invokeBwd_not_mem (g : Graph) (id : Nat) (done2 : List Nat)
    (x : Nat) (h : x ∉ done2) : ((g.invokeBwd id done2).1).gradAt x = g.gradAt x :=
  Graph.gradAt_writeGrads_not_mem done2 g _ x h

theorem Graph.gradAt_invokeBwd_isSome_mono (g : Graph) (id : Nat) (done2 : List Nat)
    (x : Nat) (h : (g.gradAt x).isSome) : (((g.invokeBwd id done2).1).gradAt x).isSome :=
  Graph.gradAt_writeGrads_isSome done2 g _ x h

theorem Graph.invokeBwd_ev (g : Graph) (id : Nat) (done2 : List Nat) :
    (g.invokeBwd id done2).2 =
      Ev.bwdCall id done2 done2 (done2.map (fun x => g.gradAt x)) := rfl

theorem Graph.processArgs_nil (id : Nat) (g : Graph) (done : List Nat) :
    Graph.processArgs id g done [] = (g, []) := rfl

theorem Graph.processArgs_cons (id : Nat) (g : Graph) (done : List Nat) (a : Nat)
    (rest : List Nat) :
    Graph.processArgs id g done (a :: rest) =
      ((Graph.processArgs id ((g.ensureGrad a).invokeBwd id (done ++ [a])).1
          (done ++ [a]) rest).1,
       ((g.ensureGrad a).invokeBwd id (done ++ [a])).2 ::
         (Graph.processArgs id ((g.ensureGrad a).invokeBwd id (done ++ [a])).1
           (done ++ [a]) rest).2) := rfl

theorem fwdCount_cons_bwd (id : Nat) (av ag : List Nat) (gp : List (Option TVal))
    (tr : List Ev) (i : Nat) :
    fwdCount (Ev.bwdCall id av ag gp :: tr) i = fwdCount tr i := by
  simp [fwdCount, List.countP_cons, isFwdCallOf]

theorem Graph.structOf_processArgs (id : Nat) :
    ∀ (rest : List Nat) (g : Graph) (done : List Nat),
      ((Graph.processArgs id g done rest).1).structOf = g.structOf
  | [], g, done => rfl
  | a :: rest, g, done => by
    rw [Graph.processArgs_cons]
    exact (Graph.structOf_processArgs id rest _ _).trans
      ((Graph.structOf_invokeBwd _ id _).trans (Graph.structOf_ensureGrad g a))

theorem Graph.valueAt_processArgs (id : Nat) :
    ∀ (rest : List Nat) (g : Graph) (done : List Nat) (x : Nat),
      ((Graph.processArgs id g done rest).1).valueAt x = g.valueAt x
  | [], g, done, x => rfl
  | a :: rest, g, done, x => by
    rw [Graph.processArgs_cons]
    exact (Graph.valueAt_processArgs id rest _ _ x).trans
      ((Graph.valueAt_invokeBwd _ id _ x).trans (Graph.valueAt_ensureGrad g a x))

theorem Graph.fwdCount_processArgs (id : Nat) :
    ∀ (rest : List Nat) (g : Graph) (done : List Nat) (i : Nat),
      fwdCount ((Graph.processArgs id g done rest).2) i = 0
  | [], g, done, i => rfl
  | a :: rest, g, done, i => by
    rw [Graph.processArgs_cons]
    show fwdCount (((g.ensureGrad a).invokeBwd id (done ++ [a])).2 :: _) i = 0
    rw [Graph.invokeBwd_ev, fwdCount_cons_bwd]
    exact Graph.fwdCount_processArgs id rest _ _ i

theorem Graph.processArgs_ev_node (id : Nat) :
    ∀ (rest : List Nat) (g : Graph) (done : List Nat),
      ∀ e ∈ (Graph.processArgs id g done rest).2, e.node = id
  | [], g, done => by
    intro e he
    rw [Graph.processArgs_nil] at he
    exact absurd he (List.not_mem_nil e)
  | a :: rest, g, done => by
    intro e he
    rw [Graph.processArgs_cons] at he
    rcases List.mem_cons.mp he with h | h
    · subst h; rfl
    · exact Graph.processArgs_ev_node id rest _ _ e h

theorem Graph.processArgs_argGrads_mem (id : Nat) :
    ∀ (rest : List Nat) (g : Graph) (done : List Nat),
      ∀ e ∈ (Graph.processArgs id g done rest).2, ∀ x ∈ e.argGradsOf,
        x ∈ done ∨ x ∈ rest
  | [], g, done => by
    intro e he
    rw [Graph.processArgs_nil] at he
    exact absurd he (List.not_mem_nil e)
  | a :: rest, g, done => by
    intro e he x hx
    rw [Graph.processArgs_cons] at he
    rcases List.mem_cons.mp he with h | h
    · subst h
      simp only [Graph.invokeBwd_ev, Ev.argGradsOf] at hx
      rcases List.mem_append.mp hx with h1 | h2
      · exact Or.inl h1
      · exact Or.inr (List.mem_cons.mpr (Or.inl (by simpa using h2)))
    · rcases Graph.processArgs_argGrads_mem id rest _ _ e h x hx with h1 | h2
      · rcases List.mem_append.mp h1 with ha | hb
        · exact Or.inl ha
        · exact Or.inr (List.mem_cons.mpr (Or.inl (by simpa using hb)))
      · exact Or.inr (List.mem_cons.mpr (Or.inr h2))

theorem Graph.gradAt_processArgs_untouched (id : Nat) :
    ∀ (rest : List Nat) (g : Graph) (done : List Nat) (x : Nat),
      (∀ e ∈ (Graph.processArgs id g done rest).2, x ∉ e.argGradsOf) →
      ((Graph.processArgs id g done rest).1).gradAt x = g.gradAt x
  | [], g, done, x, _ => rfl
  | a :: rest, g, done, x, h => by
    rw [Graph.processArgs_cons] at h ⊢
    have hhead := h _ (List.mem_cons_self _ _)
    simp only [Graph.invokeBwd_ev, Ev.argGradsOf] at hhead
    have hxa : x ≠ a := fun hh =>
      hhead (List.mem_append.mpr (Or.inr (by simp [hh])))
    have htail : ∀ e ∈ (Graph.processArgs id ((g.ensureGrad a).invokeBwd id
        (done ++ [a])).1 (done ++ [a]) rest).2, x ∉ e.argGradsOf :=
      fun e he => h e (List.mem_cons_of_mem _ he)
    rw [Graph.gradAt_processArgs_untouched id rest _ _ x htail,
      Graph.gradAt_invokeBwd_not_mem _ id _ x hhead,
      Graph.gradAt_ensureGrad_other g a x hxa]

theorem Graph.gradAt_processArgs_isSome_mono (id : Nat) :
    ∀ (rest : List Nat) (g : Graph) (done : List Nat) (x : Nat),
      (g.gradAt x).isSome → (((Graph.processArgs id g done rest).1).gradAt x).isSome
  | [], g, done, x, h => h
  | a :: rest, g, done, x, h => by
    rw [Graph.processArgs_cons]
    exact Graph.gradAt_processArgs_isSome_mono id rest _ _ x
      (Graph.gradAt_invokeBwd_isSome_mono _ id _ x
        (Graph.gradAt_ensureGrad_isSome_mono g a x h))

theorem Graph.processArgs_grads_isSome (id : Nat) :
    ∀ (rest : List Nat) (g : Graph) (done : List Nat),
      (∀ d ∈ done, (g.gradAt d).isSome) →
      (∀ d ∈ rest, d < g.nodes.length) →
      ∀ e ∈ (Graph.processArgs id g done rest).2, ∀ ov ∈ e.gradsOf, ov.isSome
  | [], g, done, _, _ => by
    intro e he
    rw [Graph.processArgs_nil] at he
    exact absurd he (List.not_mem_nil e)
  | a :: rest, g, done, hdone, hlen => by
    intro e he ov hov
    rw [Graph.processArgs_cons] at he
    have hdone2 : ∀ d ∈ done ++ [a], ((g.ensureGrad a).gradAt d).isSome := by
      intro d hd
      rcases List.mem_append.mp hd with h1 | h2
      · exact Graph.gradAt_ensureGrad_isSome_mono g a d (hdone d h1)
      · have hda : d = a := by simpa using h2
        subst hda
        exact Graph.gradAt_ensureGrad_isSome g d (hlen d (List.mem_cons_self d rest))
    rcases List.mem_cons.mp he with h | h
    · subst h
      simp only [Graph.invokeBwd_ev, Ev.gradsOf] at hov
      obtain ⟨d, hd, hdv⟩ := List.mem_map.mp hov
      exact hdv ▸ hdone2 d hd
    · have hst : (((g.ensureGrad a).invokeBwd id (done ++ [a])).1).structOf
          = g.structOf :=
        (Graph.structOf_invokeBwd _ id _).trans (Graph.structOf_ensureGrad g a)
      refine Graph.processArgs_grads_isSome id rest _ (done ++ [a]) ?_ ?_ e h ov hov
      · intro d hd
        exact Graph.gradAt_invokeBwd_isSome_mono _ id _ d (hdone2 d hd)
      · intro d hd
        rw [Graph.structOf_length hst]
        exact hlen d (List.mem_cons_of_mem a hd)

theorem Graph.processArgs_first_zero (id : Nat) :
    ∀ (rest : List Nat) (g : Graph) (done : List Nat) (x : Nat),
      x ∉ done → g.gradAt x = none →
      (∀ d ∈ rest, d < g.nodes.length) →
      ∀ e, ((Graph.processArgs id g done rest).2).find?
            (fun e' => decide (x ∈ e'.argGradsOf)) = some e →
        e.argGradsOf.getLast? = some x ∧
        e.gradsOf.getLast? = some (some (TVal.const (g.shapeAt x) 0))
  | [], g, done, x, _, _, _, e, hf => by
    rw [Graph.processArgs_nil] at hf
    exact absurd hf (by simp)
  | a :: rest, g, done, x, hxd, hgx, hlen, e, hf => by
    rw [Graph.processArgs_cons] at hf
    by_cases hp : x ∈ Ev.argGradsOf ((g.ensureGrad a).invokeBwd id (done ++ [a])).2
    · rw [List.find?_cons_of_pos _ (by simpa using hp)] at hf
      cases hf
      have hxa : x = a := by
        simp only [Graph.invokeBwd_ev, Ev.argGradsOf] at hp
        rcases List.mem_append.mp hp with h1 | h2
        · exact absurd h1 hxd
        · simpa using h2
      subst hxa
      constructor
      · simp only [Graph.invokeBwd_ev, Ev.argGradsOf]
        exact List.getLast?_concat done
      · simp only [Graph.invokeBwd_ev, Ev.gradsOf]
        rw [List.getLast?_map, List.getLast?_concat]
        rw [Graph.ensureGrad_of_none g x hgx]
        simp only [Option.map_some']
        rw [Graph.gradAt_setGrad_same _ (hlen x (List.mem_cons_self x rest))]
    · rw [List.find?_cons_of_neg _ (by simpa using hp)] at hf
      have hxa : x ≠ a := fun hh =>
        hp (by simp [Graph.invokeBwd_ev, Ev.argGradsOf, hh])
      have hxd2 : x ∉ done ++ [a] := by
        intro hh
        rcases List.mem_append.mp hh with h1 | h2
        · exact hxd h1
        · exact hxa (by simpa using h2)
      have hst : (((g.ensureGrad a).invokeBwd id (done ++ [a])).1).structOf
          = g.structOf :=
        (Graph.structOf_invokeBwd _ id _).trans (Graph.structOf_ensureGrad g a)
      have hg2 : (((g.ensureGrad a).invokeBwd id (done ++ [a])).1).gradAt x = none := by
        rw [Graph.gradAt_invokeBwd_not_mem _ id _ x hxd2,
          Graph.gradAt_ensureGrad_other g a x hxa]
        exact hgx
      have hlen2 : ∀ d ∈ rest, d < (((g.ensureGrad a).invokeBwd id
          (done ++ [a])).1).nodes.length := by
        intro d hd
        rw [Graph.structOf_length hst]
        exact hlen d (List.mem_cons_of_mem a hd)
      have hrec := Graph.processArgs_first_zero id rest _ (done ++ [a]) x hxd2 hg2 hlen2 e hf
      rwa [Graph.structOf_shapeAt hst] at hrec

/-! ### `processNode` lemmas -/

theorem Graph.processNode_of_get?_none (g : Graph) (id : Nat)
    (h : g.nodes[id]? = none) : Graph.processNode g id = (g, []) := by
  rw [Graph.processNode, h]

theorem Graph.processNode_of_value_some {g : Graph} {id : Nat} {cur : NodeInfo}
    (h : g.nodes[id]? = some cur) (hv : cur.value.isSome) :
    Graph.processNode g id = Graph.processArgs id g [] cur.args := by
  rw [Graph.processNode, h]
  simp [hv]

theorem Graph.processNode_skip (g : Graph) (id : Nat) (h : g.valueAt id = none) :
    Graph.processNode g id = (g, []) := by
  rw [Graph.processNode]
  cases hn : g.nodes[id]? with
  | none => rfl
  | some cur =>
    have hv : cur.value = none := by rwa [Graph.valueAt_of_get? hn] at h
    simp [hv]

theorem Graph.structOf_processNode (g : Graph) (id : Nat) :
    ((Graph.processNode g id).1).structOf = g.structOf := by
  rw [Graph.processNode]
  cases hn : g.nodes[id]? with
  | none => rfl
  | some cur =>
    by_cases hv : cur.value.isSome
    · simp only [hv, if_true]
      exact Graph.structOf_processArgs id cur.args g []
    · simp only [hv, Bool.false_eq_true, if_false]

theorem Graph.valueAt_processNode (g : Graph) (id x : Nat) :
    ((Graph.processNode g id).1).valueAt x = g.valueAt x := by
  rw [Graph.processNode]
  cases hn : g.nodes[id]? with
  | none => rfl
  | some cur =>
    by_cases hv : cur.value.isSome
    · simp only [hv, if_true]
      exact Graph.valueAt_processArgs id cur.args g [] x
    · simp only [hv, Bool.false_eq_true, if_false]

theorem Graph.fwdCount_processNode (g : Graph) (id i : Nat) :
    fwdCount ((Graph.processNode g id).2) i = 0 := by
  rw [Graph.processNode]
  cases hn : g.nodes[id]? with
  | none => rfl
  | some cur =>
    by_cases hv : cur.value.isSome
    · simp only [hv, if_true]
      exact Graph.fwdCount_processArgs id cur.args g [] i
    · simp only [hv, Bool.false_eq_true, if_false]
      rfl

theorem Graph.processNode_ev_node (g : Graph) (id : Nat) :
    ∀ e ∈ (Graph.processNode g id).2, e.node = id := by
  rw [Graph.processNode]
  cases hn : g.nodes[id]? with
  | none => intro e he; exact absurd he (List.not_mem_nil e)
  | some cur =>
    by_cases hv : cur.value.isSome
    · simp only [hv, if_true]
      exact Graph.processArgs_ev_node id cur.args g []
    · simp only [hv, Bool.false_eq_true, if_false]
      intro e he
      exact absurd he (List.not_mem_nil e)

theorem Graph.processNode_argGrads (g : Graph) (id : Nat) :
    ∀ e ∈ (Graph.processNode g id).2, ∀ x ∈ e.argGradsOf, x ∈ g.argsAt id := by
  cases hn : g.nodes[id]? with
  | none =>
    rw [Graph.processNode_of_get?_none g id hn]
    intro e he
    exact absurd he (List.not_mem_nil e)
  | some cur =>
    by_cases hv : cur.value.isSome
    · rw [Graph.processNode_of_value_some hn hv]
      intro e he x hx
      rcases Graph.processArgs_argGrads_mem id cur.args g [] e he x hx with h | h
      · exact absurd h (List.not_mem_nil x)
      · rw [Graph.argsAt_of_get? hn]
        exact h
    · have hvn : cur.value = none := Option.not_isSome_iff_eq_none.mp hv
      rw [Graph.processNode_skip g id (by rw [Graph.valueAt_of_get? hn]; exact hvn)]
      intro e he
      exact absurd he (List.not_mem_nil e)

theorem Graph.gradAt_processNode_untouched (g : Graph) (id x : Nat)
    (h : ∀ e ∈ (Graph.processNode g id).2, x ∉ e.argGradsOf) :
    ((Graph.processNode g id).1).gradAt x = g.gradAt x := by
  cases hn : g.nodes[id]? with
  | none => rw [Graph.processNode_of_get?_none g id hn]
  | some cur =>
    by_cases hv : cur.value.isSome
    · rw [Graph.processNode_of_value_some hn hv] at h ⊢
      exact Graph.gradAt_processArgs_untouched id cur.args g [] x h
    · have hvn : cur.value = none := Option.not_isSome_iff_eq_none.mp hv
      rw [Graph.processNode_skip g id (by rw [Graph.valueAt_of_get? hn]; exact hvn)]

theorem Graph.gradAt_processNode_isSome_mono (g : Graph) (id x : Nat)
    (h : (g.gradAt x).isSome) : (((Graph.processNode g id).1).gradAt x).isSome := by
  cases hn : g.nodes[id]? with
  | none => rw [Graph.processNode_of_get?_none g id hn]; exact h
  | some cur =>
    by_cases hv : cur.value.isSome
    · rw [Graph.processNode_of_value_some hn hv]
      exact Graph.gradAt_processArgs_isSome_mono id cur.args g [] x h
    · have hvn : cur.value = none := Option.not_isSome_iff_eq_none.mp hv
      rw [Graph.processNode_skip g id (by rw [Graph.valueAt_of_get? hn]; exact hvn)]
      exact h

theorem Graph.processNode_grads_isSome (g : Graph) (id : Nat) (hw : g.wfArgs) :
    ∀ e ∈ (Graph.processNode g id).2, ∀ ov ∈ e.gradsOf, ov.isSome := by
  cases hn : g.nodes[id]? with
  | none =>
    rw [Graph.processNode_of_get?_none g id hn]
    intro e he
    exact absurd he (List.not_mem_nil e)
  | some cur =>
    by_cases hv : cur.value.isSome
    · rw [Graph.processNode_of_value_some hn hv]
      refine Graph.processArgs_grads_isSome id cur.args g [] ?_ ?_
      · intro d hd
        exact absurd hd (List.not_mem_nil d)
      · intro d hd
        have h1 : d < id := hw id d (by rwa [Graph.argsAt_of_get? hn])
        exact Nat.lt_trans h1 (Graph.get?_lt_length hn)
    · have hvn : cur.value = none := Option.not_isSome_iff_eq_none.mp hv
      rw [Graph.processNode_skip g id (by rw [Graph.valueAt_of_get? hn]; exact hvn)]
      intro e he
      exact absurd he (List.not_mem_nil e)

theorem Graph.processNode_first_zero (g : Graph) (id : Nat) (hw : g.wfArgs)
    (x : Nat) (hgx : g.gradAt x = none) :
    ∀ e, ((Graph.processNode g id).2).find? (fun e' => decide (x ∈ e'.argGradsOf))
        = some e →
      e.argGradsOf.getLast? = some x ∧
      e.gradsOf.getLast? = some (some (TVal.const (g.shapeAt x) 0)) := by
  cases hn : g.nodes[id]? with
  | none =>
    rw [Graph.processNode_of_get?_none g id hn]
    intro e hf
    exact absurd hf (by simp)
  | some cur =>
    by_cases hv : cur.value.isSome
    · rw [Graph.processNode_of_value_some hn hv]
      refine Graph.processArgs_first_zero id cur.args g [] x
        (List.not_mem_nil x) hgx ?_
      intro d hd
      have h1 : d < id := hw id d (by rwa [Graph.argsAt_of_get? hn])
      exact Nat.lt_trans h1 (Graph.get?_lt_length hn)
    · have hvn : cur.value = none := Option.not_isSome_iff_eq_none.mp hv
      rw [Graph.processNode_skip g id (by rw [Graph.valueAt_of_get? hn]; exact hvn)]
      intro e hf
      exact absurd hf (by simp)

/-! ### `backwardLoop` lemmas -/

theorem Graph.backwardLoop_zero (g : Graph) :
    Graph.backwardLoop g 0 = Graph.processNode g 0 := rfl

theorem Graph.backwardLoop_succ (g : Graph) (id : Nat) :
    Graph.backwardLoop g (id + 1) =
      ((Graph.backwardLoop (Graph.processNode g (id + 1)).1 id).1,
       (Graph.processNode g (id + 1)).2 ++
         (Graph.backwardLoop (Graph.processNode g (id + 1)).1 id).2) := rfl

theorem Graph.structOf_backwardLoop : ∀ (id : Nat) (g : Graph),
    ((Graph.backwardLoop g id).1).structOf = g.structOf
  | 0, g => Graph.structOf_processNode g 0
  | id + 1, g => by
    rw [Graph.backwardLoop_succ]
    exact (Graph.structOf_backwardLoop id _).trans (Graph.structOf_processNode g (id + 1))

theorem Graph.valueAt_backwardLoop : ∀ (id : Nat) (g : Graph) (x : Nat),
    ((Graph.backwardLoop g id).1).valueAt x = g.valueAt x
  | 0, g, x => Graph.valueAt_processNode g 0 x
  | id + 1, g, x => by
    rw [Graph.backwardLoop_succ]
    exact (Graph.valueAt_backwardLoop id _ x).trans (Graph.valueAt_processNode g (id + 1) x)

theorem Graph.fwdCount_backwardLoop : ∀ (id : Nat) (g : Graph) (i : Nat),
    fwdCount ((Graph.backwardLoop g id).2) i = 0
  | 0, g, i => Graph.fwdCount_processNode g 0 i
  | id + 1, g, i => by
    rw [Graph.backwardLoop_succ, fwdCount_append,
      Graph.fwdCount_processNode g (id + 1) i, Graph.fwdCount_backwardLoop id _ i]

theorem Graph.backwardLoop_ev_node_le : ∀ (id : Nat) (g : Graph),
    ∀ e ∈ (Graph.backwardLoop g id).2, e.node ≤ id
  | 0, g => fun e he => Nat.le_of_eq (Graph.processNode_ev_node g 0 e he)
  | id + 1, g => by
    intro e he
    rw [Graph.backwardLoop_succ] at he
    rcases List.mem_append.mp he with h | h
    · exact Nat.le_of_eq (Graph.processNode_ev_node g (id + 1) e h)
    · exact Nat.le_trans (Graph.backwardLoop_ev_node_le id _ e h) (Nat.le_succ id)

theorem Graph.backwardLoop_pairwise : ∀ (id : Nat) (g : Graph),
    ((Graph.backwardLoop g id).2).Pairwise (fun e1 e2 => e2.node ≤ e1.node)
  | 0, g => by
    refine List.pairwise_of_forall_mem_list ?_
    intro a ha b hb
    rw [Graph.processNode_ev_node g 0 a ha, Graph.processNode_ev_node g 0 b hb]
  | id + 1, g => by
    rw [Graph.backwardLoop_succ]
    refine List.pairwise_append.mpr ⟨?_, Graph.backwardLoop_pairwise id _, ?_⟩
    · refine List.pairwise_of_forall_mem_list ?_
      intro a ha b hb
      rw [Graph.processNode_ev_node g (id + 1) a ha,
        Graph.processNode_ev_node g (id + 1) b hb]
    · intro a ha b hb
      rw [Graph.processNode_ev_node g (id + 1) a ha]
      exact Nat.le_trans (Graph.backwardLoop_ev_node_le id _ b hb) (Nat.le_succ id)

theorem Graph.backwardLoop_skip : ∀ (id : Nat) (g : Graph) (j : Nat),
    g.valueAt j = none → ∀ e ∈ (Graph.backwardLoop g id).2, e.node ≠ j
  | 0, g, j, hj => by
    intro e he
    by_cases h0 : j = 0
    · subst h0
      rw [Graph.backwardLoop_zero, Graph.processNode_skip g 0 hj] at he
      exact absurd he (List.not_mem_nil e)
    · rw [Graph.processNode_ev_node g 0 e he]
      exact fun hh => h0 hh.symm
  | id + 1, g, j, hj => by
    intro e he
    rw [Graph.backwardLoop_succ] at he
    rcases List.mem_append.mp he with h | h
    · by_cases hid : j = id + 1
      · have hj2 : g.valueAt (id + 1) = none := hid ▸ hj
        rw [Graph.processNode_skip g (id + 1) hj2] at h
        exact absurd h (List.not_mem_nil e)
      · rw [Graph.processNode_ev_node g (id + 1) e h]
        exact fun hh => hid hh.symm
    · refine Graph.backwardLoop_skip id _ j ?_ e h
      rw [Graph.valueAt_processNode g (id + 1) j]
      exact hj

theorem Graph.backwardLoop_argGrads : ∀ (id : Nat) (g : Graph),
    ∀ e ∈ (Graph.backwardLoop g id).2, ∀ x ∈ e.argGradsOf, x ∈ g.argsAt e.node
  | 0, g => by
    intro e he x hx
    rw [Graph.processNode_ev_node g 0 e he]
    exact Graph.processNode_argGrads g 0 e he x hx
  | id + 1, g => by
    intro e he x hx
    rw [Graph.backwardLoop_succ] at he
    rcases List.mem_append.mp he with h | h
    · rw [Graph.processNode_ev_node g (id + 1) e h]
      exact Graph.processNode_argGrads g (id + 1) e h x hx
    · have hrec := Graph.backwardLoop_argGrads id _ e h x hx
      rwa [Graph.structOf_argsAt (Graph.structOf_processNode g (id + 1))] at hrec

theorem Graph.gradAt_backwardLoop_untouched : ∀ (id : Nat) (g : Graph) (x : Nat),
    (∀ e ∈ (Graph.backwardLoop g id).2, x ∉ e.argGradsOf) →
    ((Graph.backwardLoop g id).1).gradAt x = g.gradAt x
  | 0, g, x, h => Graph.gradAt_processNode_untouched g 0 x h
  | id + 1, g, x, h => by
    rw [Graph.backwardLoop_succ] at h ⊢
    have h1 : ∀ e ∈ (Graph.processNode g (id + 1)).2, x ∉ e.argGradsOf :=
      fun e he => h e (List.mem_append.mpr (Or.inl he))
    have h2 : ∀ e ∈ (Graph.backwardLoop (Graph.processNode g (id + 1)).1 id).2,
        x ∉ e.argGradsOf :=
      fun e he => h e (List.mem_append.mpr (Or.inr he))
    rw [Graph.gradAt_backwardLoop_untouched id _ x h2,
      Graph.gradAt_processNode_untouched g (id + 1) x h1]

theorem Graph.gradAt_backwardLoop_isSome_mono : ∀ (id : Nat) (g : Graph) (x : Nat),
    (g.gradAt x).isSome → (((Graph.backwardLoop g id).1).gradAt x).isSome
  | 0, g, x, h => Graph.gradAt_processNode_isSome_mono g 0 x h
  | id + 1, g, x, h => by
    rw [Graph.backwardLoop_succ]
    exact Graph.gradAt_backwardLoop_isSome_mono id _ x
      (Graph.gradAt_processNode_isSome_mono g (id + 1) x h)

theorem Graph.backwardLoop_grads_isSome : ∀ (id : Nat) (g : Graph), g.wfArgs →
    ∀ e ∈ (Graph.backwardLoop g id).2, ∀ ov ∈ e.gradsOf, ov.isSome
  | 0, g, hw => Graph.processNode_grads_isSome g 0 hw
  | id + 1, g, hw => by
    intro e he
    rw [Graph.backwardLoop_succ] at he
    rcases List.mem_append.mp he with h | h
    · exact Graph.processNode_grads_isSome g (id + 1) hw e h
    · exact Graph.backwardLoop_grads_isSome id _
        (Graph.wfArgs_of_structOf (Graph.structOf_processNode g (id + 1)) hw) e h

theorem Graph.backwardLoop_first_zero : ∀ (id : Nat) (g : Graph), g.wfArgs →
    ∀ (x : Nat), g.gradAt x = none →
    ∀ e, ((Graph.backwardLoop g id).2).find? (fun e' => decide (x ∈ e'.argGradsOf))
        = some e →
      e.argGradsOf.getLast? = some x ∧
      e.gradsOf.getLast? = some (some (TVal.const (g.shapeAt x) 0))
  | 0, g, hw, x, hgx => Graph.processNode_first_zero g 0 hw x hgx
  | id + 1, g, hw, x, hgx => by
    intro e hf
    rw [Graph.backwardLoop_succ] at hf
    cases hfp : ((Graph.processNode g (id + 1)).2).find?
        (fun e' => decide (x ∈ e'.argGradsOf)) with
    | some e0 =>
      have he0 : e0 = e := by
        rw [List.find?_append, hfp] at hf
        exact Option.some.inj hf
      exact he0 ▸ Graph.processNode_first_zero g (id + 1) hw x hgx e0 hfp
    | none =>
      have hftail : ((Graph.backwardLoop (Graph.processNode g (id + 1)).1 id).2).find?
          (fun e' => decide (x ∈ e'.argGradsOf)) = some e := by
        rw [List.find?_append, hfp] at hf
        exact hf
      have hnone : ∀ e' ∈ (Graph.processNode g (id + 1)).2, x ∉ e'.argGradsOf := by
        intro e' he' hmem
        have := List.find?_eq_none.mp hfp e' he'
        simp at this
        exact this hmem
      have hg1 : ((Graph.processNode g (id + 1)).1).gradAt x = none := by
        rw [Graph.gradAt_processNode_untouched g (id + 1) x hnone]
        exact hgx
      have hrec := Graph.backwardLoop_first_zero id _
        (Graph.wfArgs_of_structOf (Graph.structOf_processNode g (id + 1)) hw)
        x hg1 e hftail
      rwa [Graph.structOf_shapeAt (Graph.structOf_processNode g (id + 1))] at hrec

/-! ### `backward` case equations -/

theorem Graph.backward_of_check_some (g : Graph) (n : Node) (e : Err)
    (h : g.checkNode n = some e) : g.backward n = (g, Except.error e) := by
  rw [Graph.backward, h]

theorem Graph.backward_of_not_calculated (g : Graph) (n : Node)
    (h : g.checkNode n = none) (hv : g.valueAt n.id = none) :
    g.backward n = (g, Except.error (Err.not_calculated n.id)) := by
  rw [Graph.backward, h]
  simp only [hv]

theorem Graph.backward_of_has_gradient (g : Graph) (n : Node) (v : TVal)
    (h : g.checkNode n = none) (hv : g.valueAt n.id = some v)
    (hg : (g.gradAt n.id).isSome) :
    g.backward n = (g, Except.error (Err.has_gradient n.id)) := by
  rw [Graph.backward, h]
  simp only [hv, hg, if_true]

theorem Graph.backward_ok_eq (g : Graph) (n : Node) (v : TVal)
    (h : g.checkNode n = none) (hv : g.valueAt n.id = some v)
    (hg : g.gradAt n.id = none) :
    g.backward n =
      ((Graph.backwardLoop (g.setGrad n.id (some (TVal.const (g.shapeAt n.id) 1)))
          n.id).1,
       Except.ok (Graph.backwardLoop
          (g.setGrad n.id (some (TVal.const (g.shapeAt n.id) 1))) n.id).2) := by
  rw [Graph.backward, h]
  simp only [hv, hg, Option.isSome_none, Bool.false_eq_true, if_false]

/-! ### `add_function` state lemmas -/

theorem getElem?_append_concat {α : Type} (l : List α) (x : α) (i : Nat) :
    (l ++ [x])[i]? = if i < l.length then l[i]?
      else if i = l.length then some x else none := by
  by_cases h1 : i < l.length
  · rw [List.getElem?_append_left h1]
    simp [h1]
  · by_cases h2 : i = l.length
    · subst h2
      simp [List.getElem?_concat_length, h1]
    · have h3 : l.length + 1 ≤ i := by omega
      rw [List.getElem?_eq_none_iff.mpr (by simpa using h3)]
      simp [h1, h2]

theorem Graph.add_function_gid (g : Graph) (f : Func) (args : List Node) :
    ((g.add_function f args).1).gid = g.gid := by
  cases hca : g.checkArgs args with
  | error e0 => rw [Graph.add_function_of_checkArgs_error g f args e0 hca]
  | ok ids =>
    cases hfs : f.forward_shape (ids.map (fun i => g.shapeAt i)) with
    | error m => rw [Graph.add_function_of_shape_error g f args ids m hca hfs]
    | ok sh =>
      rw [Graph.add_function_of_shape_ok g f args ids sh hca hfs]
      exact (Graph.foldAppendSink_props g.nodes.length ids g).1

theorem Graph.add_function_length_ge (g : Graph) (f : Func) (args : List Node) :
    g.nodes.length ≤ ((g.add_function f args).1).nodes.length := by
  cases hca : g.checkArgs args with
  | error e0 => rw [Graph.add_function_of_checkArgs_error g f args e0 hca]
  | ok ids =>
    cases hfs : f.forward_shape (ids.map (fun i => g.shapeAt i)) with
    | error m => rw [Graph.add_function_of_shape_error g f args ids m hca hfs]
    | ok sh =>
      rw [Graph.add_function_of_shape_ok g f args ids sh hca hfs]
      show g.nodes.length ≤ (_ ++ [_]).length
      rw [List.length_append, (Graph.foldAppendSink_props g.nodes.length ids g).2.1]
      omega

theorem Graph.add_function_valueAt (g : Graph) (f : Func) (args : List Node) (i : Nat) :
    ((g.add_function f args).1).valueAt i =
      if i < g.nodes.length then g.valueAt i else none := by
  have hout : g.nodes.length ≤ i → g.valueAt i = none := by
    intro hi
    rw [Graph.valueAt, List.getElem?_eq_none_iff.mpr hi]
  cases hca : g.checkArgs args with
  | error e0 =>
    rw [Graph.add_function_of_checkArgs_error g f args e0 hca]
    split
    · rfl
    · exact hout (Nat.le_of_not_lt (by assumption))
  | ok ids =>
    cases hfs : f.forward_shape (ids.map (fun i => g.shapeAt i)) with
    | error m =>
      rw [Graph.add_function_of_shape_error g f args ids m hca hfs]
      split
      · rfl
      · exact hout (Nat.le_of_not_lt (by assumption))
    | ok sh =>
      rw [Graph.add_function_of_shape_ok g f args ids sh hca hfs]
      obtain ⟨_, hlen, _, hval, _⟩ := Graph.foldAppendSink_props g.nodes.length ids g
      show Graph.valueAt _ i = _
      rw [Graph.valueAt]
      show (match ((ids.foldl (fun acc i => acc.appendSink i g.nodes.length) g).nodes
          ++ [⟨sh, f, none, none, ids, []⟩])[i]? with
        | some n => n.value
        | none => none) = _
      rw [getElem?_append_concat, hlen]
      by_cases h1 : i < g.nodes.length
      · rw [if_pos h1, if_pos h1]
        exact hval i
      · rw [if_neg h1, if_neg h1]
        by_cases h2 : i = g.nodes.length
        · rw [if_pos h2]
        · rw [if_neg h2]

theorem Graph.add_function_wfArgs (g : Graph) (f : Func) (args : List Node)
    (hw : g.wfArgs) : ((g.add_function f args).1).wfArgs := by
  cases hca : g.checkArgs args with
  | error e0 => rw [Graph.add_function_of_checkArgs_error g f args e0 hca]; exact hw
  | ok ids =>
    cases hfs : f.forward_shape (ids.map (fun i => g.shapeAt i)) with
    | error m => rw [Graph.add_function_of_shape_error g f args ids m hca hfs]; exact hw
    | ok sh =>
      rw [Graph.add_function_of_shape_ok g f args ids sh hca hfs]
      obtain ⟨_, hlen, hargs, _, _⟩ := Graph.foldAppendSink_props g.nodes.length ids g
      intro i a ha
      rw [Graph.argsAt] at ha
      revert ha
      show (∀ _ : a ∈ (match ((ids.foldl (fun acc i => acc.appendSink i g.nodes.length)
          g).nodes ++ [⟨sh, f, none, none, ids, []⟩])[i]? with
        | some n => n.args
        | none => []), a < i)
      rw [getElem?_append_concat, hlen]
      by_cases h1 : i < g.nodes.length
      · rw [if_pos h1]
        intro ha
        have : a ∈ (ids.foldl (fun acc i => acc.appendSink i g.nodes.length) g).argsAt i := by
          rw [Graph.argsAt]
          cases hn : (ids.foldl (fun acc i => acc.appendSink i g.nodes.length) g).nodes[i]? with
          | none => rw [hn] at ha; simp at ha
          | some nn => rw [hn] at ha; exact ha
        rw [hargs i] at this
        exact hw i a this
      · rw [if_neg h1]
        by_cases h2 : i = g.nodes.length
        · rw [if_pos h2]
          intro ha
          have := Graph.checkArgs_ok_lt args g ids hca a ha
          omega
        · rw [if_neg h2]
          intro ha
          exact absurd ha (List.not_mem_nil a)

theorem Graph.add_function_wfSinks (g : Graph) (f : Func) (args : List Node)
    (hw : g.wfSinks) : ((g.add_function f args).1).wfSinks := by
  cases hca : g.checkArgs args with
  | error e0 => rw [Graph.add_function_of_checkArgs_error g f args e0 hca]; exact hw
  | ok ids =>
    cases hfs : f.forward_shape (ids.map (fun i => g.shapeAt i)) with
    | error m => rw [Graph.add_function_of_shape_error g f args ids m hca hfs]; exact hw
    | ok sh =>
      rw [Graph.add_function_of_shape_ok g f args ids sh hca hfs]
      obtain ⟨_, hlen, _, _, hsink⟩ := Graph.foldAppendSink_props g.nodes.length ids g
      intro i s hs
      rw [Graph.sinksAt] at hs
      revert hs
      show (∀ _ : s ∈ (match ((ids.foldl (fun acc i => acc.appendSink i g.nodes.length)
          g).nodes ++ [⟨sh, f, none, none, ids, []⟩])[i]? with
        | some n => n.sinks
        | none => []), i < s)
      rw [getElem?_append_concat, hlen]
      by_cases h1 : i < g.nodes.length
      · rw [if_pos h1]
        intro hs
        have hmem : s ∈ (ids.foldl (fun acc i => acc.appendSink i g.nodes.length)
            g).sinksAt i := by
          rw [Graph.sinksAt]
          cases hn : (ids.foldl (fun acc i => acc.appendSink i g.nodes.length)
              g).nodes[i]? with
          | none => rw [hn] at hs; simp at hs
          | some nn => rw [hn] at hs; exact hs
        rcases hsink i s hmem with h | h
        · exact hw i s h
        · omega
      · rw [if_neg h1]
        by_cases h2 : i = g.nodes.length
        · rw [if_pos h2]
          intro hs
          exact absurd hs (List.not_mem_nil s)
        · rw [if_neg h2]
          intro hs
          exact absurd hs (List.not_mem_nil s)

/-! ### Whole-call preservation lemmas for `forward` and `backward` -/

theorem Graph.structOf_forward (fuel : Nat) (g : Graph) (n : Node) :
    (((Graph.forward fuel g n).1)).structOf = g.structOf := by
  cases hchk : g.checkNode n with
  | some e => rw [Graph.forward_of_check_some fuel g n e hchk]
  | none =>
    rw [Graph.forward_of_check_none fuel g n hchk]
    exact Graph.structOf_forwardRec fuel g n.id

theorem Graph.structOf_backward (g : Graph) (n : Node) :
    ((g.backward n).1).structOf = g.structOf := by
  cases hchk : g.checkNode n with
  | some e => rw [Graph.backward_of_check_some g n e hchk]
  | none =>
    cases hv : g.valueAt n.id with
    | none => rw [Graph.backward_of_not_calculated g n hchk hv]
    | some v =>
      by_cases hg : (g.gradAt n.id).isSome
      · rw [Graph.backward_of_has_gradient g n v hchk hv hg]
      · have hgn : g.gradAt n.id = none := Option.not_isSome_iff_eq_none.mp hg
        rw [Graph.backward_ok_eq g n v hchk hv hgn]
        exact (Graph.structOf_backwardLoop n.id _).trans (Graph.structOf_setGrad g n.id _)

theorem Graph.valueAt_backward (g : Graph) (n : Node) (x : Nat) :
    ((g.backward n).1).valueAt x = g.valueAt x := by
  cases hchk : g.checkNode n with
  | some e => rw [Graph.backward_of_check_some g n e hchk]
  | none =>
    cases hv : g.valueAt n.id with
    | none => rw [Graph.backward_of_not_calculated g n hchk hv]
    | some v =>
      by_cases hg : (g.gradAt n.id).isSome
      · rw [Graph.backward_of_has_gradient g n v hchk hv hg]
      · have hgn : g.gradAt n.id = none := Option.not_isSome_iff_eq_none.mp hg
        rw [Graph.backward_ok_eq g n v hchk hv hgn]
        show ((Graph.backwardLoop _ n.id).1).valueAt x = g.valueAt x
        rw [Graph.valueAt_backwardLoop, Graph.valueAt_setGrad]

/-! ### Operation-sequence lemmas -/

theorem Graph.step_add (g : Graph) (f : Func) (ns : List Node) :
    g.step (Op.add f ns) = ((g.add_function f ns).1, []) := rfl

theorem Graph.step_fwd_eq (g : Graph) (fuel : Nat) (n : Node) :
    g.step (Op.fwd fuel n) = ((Graph.forward fuel g n).1,
      match (Graph.forward fuel g n).2 with
      | Except.ok r => r.1
      | Except.error _ => []) := rfl

theorem Graph.step_bwd_eq (g : Graph) (n : Node) :
    g.step (Op.bwd n) = ((g.backward n).1,
      match (g.backward n).2 with
      | Except.ok tr => tr
      | Except.error _ => []) := rfl

theorem Graph.runOps_nil (g : Graph) : Graph.runOps g [] = (g, []) := rfl

theorem Graph.runOps_cons (g : Graph) (op : Op) (rest : List Op) :
    Graph.runOps g (op :: rest) =
      ((Graph.runOps (g.step op).1 rest).1,
       (g.step op).2 ++ (Graph.runOps (g.step op).1 rest).2) := rfl

theorem Graph.fwdCount_step_bwd (g : Graph) (n : Node) (i : Nat) :
    fwdCount ((g.step (Op.bwd n)).2) i = 0 := by
  rw [Graph.step_bwd_eq]
  cases hchk : g.checkNode n with
  | some e => rw [Graph.backward_of_check_some g n e hchk]; rfl
  | none =>
    cases hv : g.valueAt n.id with
    | none => rw [Graph.backward_of_not_calculated g n hchk hv]; rfl
    | some v =>
      by_cases hg : (g.gradAt n.id).isSome
      · rw [Graph.backward_of_has_gradient g n v hchk hv hg]; rfl
      · have hgn : g.gradAt n.id = none := Option.not_isSome_iff_eq_none.mp hg
        rw [Graph.backward_ok_eq g n v hchk hv hgn]
        exact Graph.fwdCount_backwardLoop n.id _ i

theorem Graph.step_wfArgs (g : Graph) (op : Op) (hw : g.wfArgs) :
    ((g.step op).1).wfArgs := by
  cases op with
  | add f ns => exact Graph.add_function_wfArgs g f ns hw
  | fwd fuel n => exact Graph.wfArgs_of_structOf (Graph.structOf_forward fuel g n) hw
  | bwd n => exact Graph.wfArgs_of_structOf (Graph.structOf_backward g n) hw

theorem Graph.step_wfSinks (g : Graph) (op : Op) (hw : g.wfSinks) :
    ((g.step op).1).wfSinks := by
  cases op with
  | add f ns => exact Graph.add_function_wfSinks g f ns hw
  | fwd fuel n => exact Graph.wfSinks_of_structOf (Graph.structOf_forward fuel g n) hw
  | bwd n => exact Graph.wfSinks_of_structOf (Graph.structOf_backward g n) hw

theorem Graph.runOps_wfArgs : ∀ (ops : List Op) (g : Graph), g.wfArgs →
    ((Graph.runOps g ops).1).wfArgs
  | [], g, hw => hw
  | op :: rest, g, hw => by
    rw [Graph.runOps_cons]
    exact Graph.runOps_wfArgs rest (g.step op).1 (Graph.step_wfArgs g op hw)

theorem Graph.runOps_wfSinks : ∀ (ops : List Op) (g : Graph), g.wfSinks →
    ((Graph.runOps g ops).1).wfSinks
  | [], g, hw => hw
  | op :: rest, g, hw => by
    rw [Graph.runOps_cons]
    exact Graph.runOps_wfSinks rest (g.step op).1 (Graph.step_wfSinks g op hw)

theorem emptyGraph_wfArgs (gid : Nat) : (emptyGraph gid).wfArgs := by
  intro i a ha
  simp [Graph.argsAt, emptyGraph] at ha

theorem emptyGraph_wfSinks (gid : Nat) : (emptyGraph gid).wfSinks := by
  intro i s hs
  simp [Graph.sinksAt, emptyGraph] at hs


theorem Graph.step_LifeInv (g : Graph) (op : Op) (tr : List Ev) (h : LifeInv g tr) :
    LifeInv (g.step op).1 (tr ++ (g.step op).2) := by
  obtain ⟨hw, hc⟩ := h
  cases op with
  | add f ns =>
    rw [Graph.step_add]
    show LifeInv (g.add_function f ns).1 (tr ++ [])
    rw [List.append_nil]
    refine ⟨Graph.add_function_wfArgs g f ns hw, fun i => ?_⟩
    refine ⟨(hc i).1, fun h1 => ?_⟩
    obtain ⟨hsome, hlen⟩ := (hc i).2 h1
    constructor
    · rw [Graph.add_function_valueAt g f ns i, if_pos hlen]
      exact hsome
    · exact Nat.lt_of_lt_of_le hlen (Graph.add_function_length_ge g f ns)
  | fwd fuel n =>
    rw [Graph.step_fwd_eq]
    cases hchk : g.checkNode n with
    | some e =>
      rw [Graph.forward_of_check_some fuel g n e hchk]
      show LifeInv g (tr ++ [])
      rw [List.append_nil]
      exact ⟨hw, hc⟩
    | none =>
      rw [Graph.forward_of_check_none fuel g n hchk]
      show LifeInv (Graph.forwardRec fuel g n.id).1
        (tr ++ (Graph.forwardRec fuel g n.id).2)
      obtain ⟨hs, hm, hz, hcnt, hr⟩ := Graph.forwardRec_props fuel g n.id hw
      refine ⟨Graph.wfArgs_of_structOf hs hw, fun i => ?_⟩
      rw [fwdCount_append]
      rcases Nat.eq_zero_or_pos (fwdCount tr i) with h0 | h1
      · rw [h0, Nat.zero_add]
        refine ⟨hcnt i, fun hge => ?_⟩
        obtain ⟨hsome, _, hlen⟩ := hr i hge
        exact ⟨hsome, by rwa [Graph.structOf_length hs]⟩
      · obtain ⟨hsome, hlen⟩ := (hc i).2 h1
        rw [hz i hsome, Nat.add_zero]
        refine ⟨(hc i).1, fun hge => ?_⟩
        exact ⟨hm i hsome, by rwa [Graph.structOf_length hs]⟩
  | bwd n =>
    refine ⟨Graph.step_wfArgs g (Op.bwd n) hw, fun i => ?_⟩
    rw [fwdCount_append, Graph.fwdCount_step_bwd g n i, Nat.add_zero]
    refine ⟨(hc i).1, fun hge => ?_⟩
    obtain ⟨hsome, hlen⟩ := (hc i).2 hge
    constructor
    · show (((g.step (Op.bwd n)).1).valueAt i).isSome
      rw [Graph.step_bwd_eq]
      show (((g.backward n).1).valueAt i).isSome
      rw [Graph.valueAt_backward]
      exact hsome
    · show i < ((g.step (Op.bwd n)).1).nodes.length
      rw [Graph.step_bwd_eq]
      show i < ((g.backward n).1).nodes.length
      rw [Graph.structOf_length (Graph.structOf_backward g n)]
      exact hlen

theorem Graph.runOps_LifeInv : ∀ (ops : List Op) (g : Graph) (tr : List Ev),
    LifeInv g tr → LifeInv (Graph.runOps g ops).1 (tr ++ (Graph.runOps g ops).2)
  | [], g, tr, h => by
    rw [Graph.runOps_nil]
    show LifeInv g (tr ++ [])
    rw [List.append_nil]
    exact h
  | op :: rest, g, tr, h => by
    rw [Graph.runOps_cons]
    have h2 := Graph.runOps_LifeInv rest (g.step op).1 (tr ++ (g.step op).2)
      (Graph.step_LifeInv g op tr h)
    show LifeInv (Graph.runOps (g.step op).1 rest).1
      (tr ++ ((g.step op).2 ++ (Graph.runOps (g.step op).1 rest).2))
    rwa [← List.append_assoc]

theorem LifeInv_empty (gid : Nat) : LifeInv (emptyGraph gid) [] :=
  ⟨emptyGraph_wfArgs gid, fun _ =>
    ⟨by simp [fwdCount], fun h => absurd h (by simp [fwdCount])⟩⟩

/-! ### Check characterizations and remaining helpers -/

theorem Graph.checkNode_of_gid_ne (g : Graph) (n : Node) (h : n.g ≠ g.gid) :
    g.checkNode n = some Err.mismatch := by
  rw [Graph.checkNode, if_pos h]

theorem Graph.checkNode_of_oob (g : Graph) (n : Node) (h1 : n.g = g.gid)
    (h2 : g.nodes.length ≤ n.id) : g.checkNode n = some Err.invalid_id := by
  rw [Graph.checkNode, if_neg (by simp [h1]), if_pos h2]

theorem Graph.checkArgs_cons_some (g : Graph) (n : Node) (rest : List Node) (e : Err)
    (h : g.checkNode n = some e) : g.checkArgs (n :: rest) = Except.error e := by
  rw [Graph.checkArgs, h]

theorem Graph.get_value_of_check_some (g : Graph) (n : Node) (e : Err)
    (h : g.checkNode n = some e) : g.get_value n = Except.error e := by
  rw [Graph.get_value, h]

theorem Graph.get_gradient_of_check_some (g : Graph) (n : Node) (e : Err)
    (h : g.checkNode n = some e) : g.get_gradient n = Except.error e := by
  rw [Graph.get_gradient, h]

/-- A node whose value is already realized is returned at once by
`forward_recursive`: no mutation, no forward invocation. -/
theorem Graph.forwardRec_of_some (fuel : Nat) (g : Graph) (id : Nat)
    (h : (g.valueAt id).isSome) : Graph.forwardRec fuel g id = (g, []) := by
  cases fuel with
  | zero => rfl
  | succ fuel =>
    rw [Graph.forwardRec]
    cases hn : g.nodes[id]? with
    | none => rfl
    | some n =>
      have hv : n.value.isSome := by rwa [Graph.valueAt_of_get? hn] at h
      simp only [hv, if_true]

/-- The backward sweep from position `t` on a well-formed state never
writes the gradient buffer of any node at or above `t`: every buffer it
writes belongs to an operand of a visited node, which lies strictly
below that node and hence strictly below `t`. -/
theorem Graph.backwardLoop_preserves_high_grad (g : Graph) (t : Nat) (hw : g.wfArgs)
    (x : Nat) (hx : t ≤ x) :
    ((Graph.backwardLoop g t).1).gradAt x = g.gradAt x := by
  apply Graph.gradAt_backwardLoop_untouched
  intro e he hmem
  have h1 := Graph.backwardLoop_argGrads t g e he x hmem
  have h2 := hw e.node x h1
  have h3 := Graph.backwardLoop_ev_node_le t g e he
  omega

/-- After a successful backward pass from a well-formed state, the
target node's gradient is the all-ones seed. -/
theorem Graph.backward_target_grad (g : Graph) (n : Node) (v : TVal) (hw : g.wfArgs)
    (hchk : g.checkNode n = none) (hv : g.valueAt n.id = some v)
    (hgn : g.gradAt n.id = none) :
    ((g.backward n).1).gradAt n.id = some (TVal.const (g.shapeAt n.id) 1) := by
  rw [Graph.backward_ok_eq g n v hchk hv hgn]
  show ((Graph.backwardLoop (g.setGrad n.id (some (TVal.const (g.shapeAt n.id) 1)))
      n.id).1).gradAt n.id = _
  have hseedwf : (g.setGrad n.id (some (TVal.const (g.shapeAt n.id) 1))).wfArgs :=
    Graph.wfArgs_of_structOf (Graph.structOf_setGrad g n.id _) hw
  rw [Graph.backwardLoop_preserves_high_grad _ n.id hseedwf n.id (Nat.le_refl _)]
  exact Graph.gradAt_setGrad_same _ ((Graph.checkNode_none_iff g n).mp hchk).2

/-! ### Concrete operations and scenario graphs -/












/-! ### Claim theorems -/

/-- C8: for all Shapes `a`, `b`, `a.has_compatible_batch(b)` returns
true iff `a.batch_size() == b.batch_size()` or either batch size is 1;
and the extent query at any axis index at or beyond the stored depth
returns 1. -/
theorem shape_compat_batch_and_extent (a b : Shape) (i : Nat) (h : a.depth ≤ i) :
    (a.has_compatible_batch b = true ↔
      (a.batch_size = b.batch_size ∨ a.batch_size = 1 ∨ b.batch_size = 1)) ∧
    a.extent i = 1 := by
  constructor
  · simp only [Shape.has_compatible_batch, Shape.batch_size, Bool.or_eq_true, beq_iff_eq]
    exact or_assoc
  · rw [Shape.extent, if_neg (Nat.not_lt_of_le h)]

theorem shape_compat_batch_and_extent_witness :
    ((Shape.mk [2, 3] 4 6).has_compatible_batch (Shape.mk [2, 3] 1 6) = true ↔
      ((Shape.mk [2, 3] 4 6).batch_size = (Shape.mk [2, 3] 1 6).batch_size ∨
       (Shape.mk [2, 3] 4 6).batch_size = 1 ∨
       (Shape.mk [2, 3] 1 6).batch_size = 1)) ∧
    (Shape.mk [2, 3] 4 6).extent 5 = 1 :=
  shape_compat_batch_and_extent (Shape.mk [2, 3] 4 6) (Shape.mk [2, 3] 1 6) 5 (by decide)

/-- C2: in every reachable graph state every operand position of every
node is strictly less than the node's own position (so iterating
positions 0..N-1 is a valid dependency order), and a newly recorded
node's position equals the number of nodes before the append. -/
theorem graph_topological_invariant :
    (∀ (gid : Nat) (ops : List Op), ((Graph.runOps (emptyGraph gid) ops).1).wfArgs) ∧
    (∀ (g : Graph) (f : Func) (args : List Node) (g' : Graph) (nd : Node),
      g.add_function f args = (g', Except.ok nd) → nd.id = g.nodes.length) := by
  constructor
  · intro gid ops
    exact Graph.runOps_wfArgs ops (emptyGraph gid) (emptyGraph_wfArgs gid)
  · intro g f args g' nd h
    obtain ⟨ids, sh, _, _, hnd, _⟩ := Graph.add_function_ok g f args g' nd h
    rw [hnd]

theorem graph_topological_invariant_witness :
    (Node.mk 0 0).id = (emptyGraph 0).nodes.length :=
  graph_topological_invariant.2 (emptyGraph 0) (leafF sh23 3) [] gW0 ⟨0, 0⟩ (by rfl)

/-- C9: in every reachable graph state every consumer (sink) position
recorded for a node is strictly greater than the node's own position,
and neither forward evaluation nor backward differentiation ever
changes any sink list. -/
theorem sinks_invariant :
    (∀ (gid : Nat) (ops : List Op), ((Graph.runOps (emptyGraph gid) ops).1).wfSinks) ∧
    (∀ (fuel : Nat) (g : Graph) (n : Node) (i : Nat),
      ((Graph.forward fuel g n).1).sinksAt i = g.sinksAt i ∧
      ((g.backward n).1).sinksAt i = g.sinksAt i) := by
  constructor
  · intro gid ops
    exact Graph.runOps_wfSinks ops (emptyGraph gid) (emptyGraph_wfSinks gid)
  · intro fuel g n i
    exact ⟨Graph.structOf_sinksAt (Graph.structOf_forward fuel g n) i,
      Graph.structOf_sinksAt (Graph.structOf_backward g n) i⟩

theorem sinks_invariant_witness :
    ((Graph.forward 0 gW2 ⟨0, 2⟩).1).sinksAt 0 = gW2.sinksAt 0 ∧
    ((gW2.backward ⟨0, 2⟩).1).sinksAt 0 = gW2.sinksAt 0 :=
  sinks_invariant.2 0 gW2 ⟨0, 2⟩ 0

/-- C5: when shape inference fails while recording a new node, the call
reports a shape-mismatch failure and the graph is left completely
unmodified — same state, same node count, no sink list extended. -/
theorem add_function_shape_mismatch_atomic (g : Graph) (f : Func) (args : List Node)
    (ids : List Nat) (m : String) (hca : g.checkArgs args = Except.ok ids)
    (hfs : f.forward_shape (ids.map (fun i => g.shapeAt i)) = Except.error m) :
    (g.add_function f args).2 = Except.error (Err.shape_mismatch m) ∧
    (g.add_function f args).1 = g ∧
    ((g.add_function f args).1).nodes.length = g.nodes.length ∧
    (∀ i, ((g.add_function f args).1).sinksAt i = g.sinksAt i) := by
  rw [Graph.add_function_of_shape_error g f args ids m hca hfs]
  exact ⟨rfl, rfl, rfl, fun _ => rfl⟩

theorem add_function_shape_mismatch_atomic_witness :
    (gMis.add_function add2F [⟨0, 0⟩, ⟨0, 2⟩]).2 =
      Except.error (Err.shape_mismatch "shape mismatch") ∧
    (gMis.add_function add2F [⟨0, 0⟩, ⟨0, 2⟩]).1 = gMis ∧
    ((gMis.add_function add2F [⟨0, 0⟩, ⟨0, 2⟩]).1).nodes.length = gMis.nodes.length :=
  ⟨(add_function_shape_mismatch_atomic gMis add2F [⟨0, 0⟩, ⟨0, 2⟩] [0, 2]
      "shape mismatch" (by rfl) (by rfl)).1,
   (add_function_shape_mismatch_atomic gMis add2F [⟨0, 0⟩, ⟨0, 2⟩] [0, 2]
      "shape mismatch" (by rfl) (by rfl)).2.1,
   (add_function_shape_mismatch_atomic gMis add2F [⟨0, 0⟩, ⟨0, 2⟩] [0, 2]
      "shape mismatch" (by rfl) (by rfl)).2.2.1⟩

/-- C7: every graph operation taking a Node handle first runs
`CHECK_NODE`: a handle naming a different graph is rejected with the
recoverable graph-mismatch error and the state is unchanged, while a
handle of this graph whose positional index is out of range hits the
`std::abort()` branch (modelled as the distinguished fatal condition
`Err.invalid_id`) rather than a recoverable report. -/
theorem handle_check_dichotomy (g : Graph) (n : Node) :
    (n.g ≠ g.gid →
      g.checkNode n = some Err.mismatch ∧
      (∀ (f : Func) (rest : List Node),
        g.add_function f (n :: rest) = (g, Except.error Err.mismatch)) ∧
      (∀ fuel, Graph.forward fuel g n = (g, Except.error Err.mismatch)) ∧
      g.backward n = (g, Except.error Err.mismatch) ∧
      g.get_value n = Except.error Err.mismatch ∧
      g.get_gradient n = Except.error Err.mismatch) ∧
    (n.g = g.gid → g.nodes.length ≤ n.id →
      g.checkNode n = some Err.invalid_id ∧
      (∀ (f : Func) (rest : List Node),
        g.add_function f (n :: rest) = (g, Except.error Err.invalid_id)) ∧
      (∀ fuel, Graph.forward fuel g n = (g, Except.error Err.invalid_id)) ∧
      g.backward n = (g, Except.error Err.invalid_id) ∧
      g.get_value n = Except.error Err.invalid_id ∧
      g.get_gradient n = Except.error Err.invalid_id) := by
  constructor
  · intro h
    have hc := Graph.checkNode_of_gid_ne g n h
    exact ⟨hc,
      fun f rest => Graph.add_function_of_checkArgs_error g f (n :: rest) _
        (Graph.checkArgs_cons_some g n rest _ hc),
      fun fuel => Graph.forward_of_check_some fuel g n _ hc,
      Graph.backward_of_check_some g n _ hc,
      Graph.get_value_of_check_some g n _ hc,
      Graph.get_gradient_of_check_some g n _ hc⟩
  · intro h1 h2
    have hc := Graph.checkNode_of_oob g n h1 h2
    exact ⟨hc,
      fun f rest => Graph.add_function_of_checkArgs_error g f (n :: rest) _
        (Graph.checkArgs_cons_some g n rest _ hc),
      fun fuel => Graph.forward_of_check_some fuel g n _ hc,
      Graph.backward_of_check_some g n _ hc,
      Graph.get_value_of_check_some g n _ hc,
      Graph.get_gradient_of_check_some g n _ hc⟩

theorem handle_check_dichotomy_witness :
    gW2.get_value ⟨1, 0⟩ = Except.error Err.mismatch ∧
    gW2.backward ⟨0, 99⟩ = (gW2, Except.error Err.invalid_id) :=
  ⟨((handle_check_dichotomy gW2 ⟨1, 0⟩).1 (by decide)).2.2.2.2.1,
   ((handle_check_dichotomy gW2 ⟨0, 99⟩).2 (by decide) (by decide)).2.2.2.1⟩

/-- C10: backward differentiation errors exactly when the handle fails
`CHECK_NODE` or a precondition (value unrealized / gradient already
present) is violated, and every failing call leaves the graph state
exactly as it was — no value or gradient buffer is created or
modified. -/
theorem backward_atomic_on_error (g : Graph) (n : Node) :
    ((∃ e, (g.backward n).2 = Except.error e) ↔
      (g.checkNode n ≠ none ∨ g.valueAt n.id = none ∨
        (g.gradAt n.id).isSome = true)) ∧
    (∀ e, (g.backward n).2 = Except.error e → (g.backward n).1 = g) := by
  cases hchk : g.checkNode n with
  | some e0 =>
    rw [Graph.backward_of_check_some g n e0 hchk]
    refine ⟨⟨fun _ => Or.inl (by simp), fun _ => ⟨e0, rfl⟩⟩,
      fun _ _ => rfl⟩
  | none =>
    cases hv : g.valueAt n.id with
    | none =>
      rw [Graph.backward_of_not_calculated g n hchk hv]
      exact ⟨⟨fun _ => Or.inr (Or.inl rfl), fun _ => ⟨Err.not_calculated n.id, rfl⟩⟩,
        fun _ _ => rfl⟩
    | some v =>
      by_cases hg : (g.gradAt n.id).isSome
      · rw [Graph.backward_of_has_gradient g n v hchk hv hg]
        exact ⟨⟨fun _ => Or.inr (Or.inr hg), fun _ => ⟨Err.has_gradient n.id, rfl⟩⟩,
          fun _ _ => rfl⟩
      · have hgn : g.gradAt n.id = none := Option.not_isSome_iff_eq_none.mp hg
        rw [Graph.backward_ok_eq g n v hchk hv hgn]
        refine ⟨⟨fun ⟨e, he⟩ => absurd he (by simp), fun hor => ?_⟩, fun e he => ?_⟩
        · rcases hor with h1 | h2 | h3
          · exact absurd rfl h1
          · exact Option.noConfusion h2
          · rw [hgn] at h3; exact Bool.noConfusion h3
        · exact absurd he (by simp)

theorem backward_atomic_on_error_witness :
    (gW2.backward ⟨0, 5⟩).1 = gW2 :=
  (backward_atomic_on_error gW2 ⟨0, 5⟩).2 Err.invalid_id (by rfl)

/-- C4: with the handle check passed, backward fails with the
"not calculated" condition whenever the target's value is unrealized,
fails with the "already has gradient" condition whenever the value is
realized but a gradient is already present, succeeds when neither
precondition is violated, and a second backward call on the same target
after a successful one is rejected with the "already has gradient"
condition rather than silently re-accumulated. -/
theorem backward_precondition_checks (g : Graph) (n : Node)
    (hchk : g.checkNode n = none) :
    (g.valueAt n.id = none →
      g.backward n = (g, Except.error (Err.not_calculated n.id))) ∧
    (∀ v, g.valueAt n.id = some v → (g.gradAt n.id).isSome →
      g.backward n = (g, Except.error (Err.has_gradient n.id))) ∧
    (∀ v, g.valueAt n.id = some v → g.gradAt n.id = none →
      ∃ tr, (g.backward n).2 = Except.ok tr) ∧
    (g.wfArgs → ∀ (g' : Graph) (tr : List Ev), g.backward n = (g', Except.ok tr) →
      g'.backward n = (g', Except.error (Err.has_gradient n.id))) := by
  refine ⟨fun hv => Graph.backward_of_not_calculated g n hchk hv,
    fun v hv hg => Graph.backward_of_has_gradient g n v hchk hv hg,
    fun v hv hgn => ?_, fun hw g' tr h => ?_⟩
  · rw [Graph.backward_ok_eq g n v hchk hv hgn]
    exact ⟨_, rfl⟩
  · cases hv : g.valueAt n.id with
    | none =>
      rw [Graph.backward_of_not_calculated g n hchk hv] at h
      exact absurd (congrArg Prod.snd h) (by simp)
    | some v =>
      by_cases hg : (g.gradAt n.id).isSome
      · rw [Graph.backward_of_has_gradient g n v hchk hv hg] at h
        exact absurd (congrArg Prod.snd h) (by simp)
      · have hgn : g.gradAt n.id = none := Option.not_isSome_iff_eq_none.mp hg
        have hg' : g' = (g.backward n).1 := (congrArg Prod.fst h).symm
        have hst := Graph.structOf_backward g n
        have hchk' : g'.checkNode n = none := by
          rw [Graph.checkNode_none_iff] at hchk ⊢
          rw [hg', Graph.structOf_gid hst, Graph.structOf_length hst]
          exact hchk
        have hv' : g'.valueAt n.id = some v := by
          rw [hg', Graph.valueAt_backward]
          exact hv
        have hgs : (g'.gradAt n.id).isSome := by
          rw [hg', Graph.backward_target_grad g n v hw hchk hv hgn]
          rfl
        exact Graph.backward_of_has_gradient g' n v hchk' hv' hgs

theorem backward_precondition_checks_witness :
    gW2.backward ⟨0, 2⟩ = (gW2, Except.error (Err.not_calculated 2)) :=
  (backward_precondition_checks gW2 ⟨0, 2⟩ (by rfl)).1 (by rfl)

/-- C6: forward evaluation is memoized and idempotent: over any
lifetime of a graph (any operation sequence from a fresh graph) each
node's operation's forward computation is invoked at most once, and a
second forward call on an already-evaluated target performs no numeric
work, leaves the state untouched and returns the identical stored
value. -/
theorem forward_memoized_idempotent :
    (∀ (gid : Nat) (ops : List Op) (i : Nat),
      fwdCount ((Graph.runOps (emptyGraph gid) ops).2) i ≤ 1) ∧
    (∀ (fuel : Nat) (g : Graph) (n : Node) (g1 : Graph) (tr : List Ev)
       (v : Option TVal),
      1 ≤ fuel → Graph.forward fuel g n = (g1, Except.ok (tr, v)) →
      ∀ fuel2, Graph.forward fuel2 g1 n = (g1, Except.ok ([], v)) ∧
        v = g1.valueAt n.id) := by
  constructor
  · intro gid ops i
    have h := Graph.runOps_LifeInv ops (emptyGraph gid) [] (LifeInv_empty gid)
    rw [List.nil_append] at h
    exact (h.2 i).1
  · intro fuel g n g1 tr v hf h fuel2
    cases hchk : g.checkNode n with
    | some e =>
      rw [Graph.forward_of_check_some fuel g n e hchk] at h
      exact absurd (congrArg Prod.snd h) (by simp)
    | none =>
      rw [Graph.forward_of_check_none fuel g n hchk] at h
      have hg1 : g1 = (Graph.forwardRec fuel g n.id).1 := (congrArg Prod.fst h).symm
      have hv : v = ((Graph.forwardRec fuel g n.id).1).valueAt n.id := by
        have h2 := congrArg Prod.snd h
        simp only at h2
        exact (congrArg Prod.snd (Except.ok.inj h2)).symm
      have hid : n.id < g.nodes.length := ((Graph.checkNode_none_iff g n).mp hchk).2
      have hsome : (g1.valueAt n.id).isSome := by
        rw [hg1]
        exact Graph.forwardRec_sets_value fuel g n.id hf hid
      have hst := Graph.structOf_forwardRec fuel g n.id
      have hchk1 : g1.checkNode n = none := by
        rw [Graph.checkNode_none_iff, hg1, Graph.structOf_gid hst,
          Graph.structOf_length hst]
        exact (Graph.checkNode_none_iff g n).mp hchk
      have hveq : v = g1.valueAt n.id := by rw [hg1]; exact hv
      refine ⟨?_, hveq⟩
      rw [Graph.forward_of_check_none fuel2 g1 n hchk1,
        Graph.forwardRec_of_some fuel2 g1 n.id hsome, hveq]

theorem forward_memoized_idempotent_witness :
    Graph.forward 0 gWf ⟨0, 2⟩ = (gWf, Except.ok ([], some (TVal.ext 7))) ∧
    some (TVal.ext 7) = gWf.valueAt 2 :=
  forward_memoized_idempotent.2 5 gW2 ⟨0, 2⟩ gWf
    [Ev.fwdCall 0, Ev.fwdCall 1, Ev.fwdCall 2] (some (TVal.ext 7))
    (by decide) (by rfl) 0

/-- C3: a successful backward call on a well-formed graph seeds the
target's gradient with the all-ones tensor of the target's shape (and
the sweep never overwrites it), emits its backward invocations in
weakly decreasing node order bounded by the target position, emits
nothing for nodes whose value was never realized, passes only existing
gradient buffers to every backward step, and the first invocation whose
gradient list contains an operand whose gradient was absent receives,
at that operand's (final) list position, the freshly created all-zero
tensor of the operand's shape. -/
theorem backward_algorithm_structure (g : Graph) (n : Node) (g' : Graph)
    (tr : List Ev) (hw : g.wfArgs) (h : g.backward n = (g', Except.ok tr)) :
    g'.gradAt n.id = some (TVal.const (g.shapeAt n.id) 1) ∧
    tr.Pairwise (fun e1 e2 => e2.node ≤ e1.node) ∧
    (∀ e ∈ tr, e.node ≤ n.id) ∧
    (∀ j, g.valueAt j = none → ∀ e ∈ tr, e.node ≠ j) ∧
    (∀ e ∈ tr, ∀ ov ∈ e.gradsOf, ov.isSome) ∧
    (∀ x, x ≠ n.id → g.gradAt x = none →
      ∀ e, tr.find? (fun e' => decide (x ∈ e'.argGradsOf)) = some e →
        e.argGradsOf.getLast? = some x ∧
        e.gradsOf.getLast? = some (some (TVal.const (g.shapeAt x) 0))) := by
  cases hchk : g.checkNode n with
  | some e0 =>
    rw [Graph.backward_of_check_some g n e0 hchk] at h
    exact absurd (congrArg Prod.snd h) (by simp)
  | none =>
    cases hv : g.valueAt n.id with
    | none =>
      rw [Graph.backward_of_not_calculated g n hchk hv] at h
      exact absurd (congrArg Prod.snd h) (by simp)
    | some v =>
      by_cases hg : (g.gradAt n.id).isSome
      · rw [Graph.backward_of_has_gradient g n v hchk hv hg] at h
        exact absurd (congrArg Prod.snd h) (by simp)
      · have hgn : g.gradAt n.id = none := Option.not_isSome_iff_eq_none.mp hg
        rw [Graph.backward_ok_eq g n v hchk hv hgn] at h
        have hg' : (Graph.backwardLoop (g.setGrad n.id
            (some (TVal.const (g.shapeAt n.id) 1))) n.id).1 = g' :=
          congrArg Prod.fst h
        have htr : (Graph.backwardLoop (g.setGrad n.id
            (some (TVal.const (g.shapeAt n.id) 1))) n.id).2 = tr := by
          have h2 := congrArg Prod.snd h
          simp only at h2
          exact Except.ok.inj h2
        have hstg : (g.setGrad n.id
            (some (TVal.const (g.shapeAt n.id) 1))).structOf = g.structOf :=
          Graph.structOf_setGrad g n.id _
        have hwgs : (g.setGrad n.id
            (some (TVal.const (g.shapeAt n.id) 1))).wfArgs :=
          Graph.wfArgs_of_structOf hstg hw
        refine ⟨?_, ?_, ?_, ?_, ?_, ?_⟩
        · rw [← hg',
            Graph.backwardLoop_preserves_high_grad _ n.id hwgs n.id (Nat.le_refl _)]
          exact Graph.gradAt_setGrad_same _ ((Graph.checkNode_none_iff g n).mp hchk).2
        · rw [← htr]
          exact Graph.backwardLoop_pairwise n.id _
        · rw [← htr]
          exact Graph.backwardLoop_ev_node_le n.id _
        · intro j hj
          rw [← htr]
          refine Graph.backwardLoop_skip n.id _ j ?_
          rw [Graph.valueAt_setGrad]
          exact hj
        · rw [← htr]
          exact Graph.backwardLoop_grads_isSome n.id _ hwgs
        · intro x hxn hgx e hf
          rw [← htr] at hf
          have hgsx : (g.setGrad n.id
              (some (TVal.const (g.shapeAt n.id) 1))).gradAt x = none := by
            rw [Graph.gradAt_setGrad_other _ hxn]
            exact hgx
          have hz := Graph.backwardLoop_first_zero n.id _ hwgs x hgsx e hf
          rwa [Graph.structOf_shapeAt hstg] at hz

theorem backward_algorithm_structure_witness :
    gWb.gradAt 2 = some (TVal.const (gWf.shapeAt 2) 1) :=
  (backward_algorithm_structure gWf ⟨0, 2⟩ gWb bwTr
    (Graph.wfArgs_of_b (by decide)) (by rfl)).1

/-- C1 (evaluation at the failing input): in the concrete scenario the
sum node at position 2 has the two operands `[0, 1]`, yet the sweep
invokes that node's operation's backward step twice, and the first
invocation's operand-value and operand-gradient lists hold only the
first operand — the engine does not make a single invocation with the
complete two-element lists. -/
theorem backward_invoked_per_operand_incomplete_lists :
    gWf.argsAt 2 = [0, 1] ∧
    (gWf.backward ⟨0, 2⟩).2 = Except.ok bwTr ∧
    (bwTr.filter (fun e => e.node == 2)).length = 2 ∧
    bwTr.map Ev.argValsOf = [[0], [0, 1]] ∧
    bwTr.map Ev.argGradsOf = [[0], [0, 1]] :=
  ⟨by rfl, by rfl, by rfl, by rfl, by rfl⟩

end Primitiv
